import Mathlib

/-!
Verification of the small-world mesh background animator
(`src/js/background-animation-smallworld.js`, class `SmallWorldMeshBackground`).

The JavaScript source is shallowly embedded below.  Numbers are modelled by
`ℚ` (the program only ever adds, subtracts, multiplies, divides and compares,
so exact rational arithmetic is a faithful model of the intended real-number
semantics).  The one exception is Euclidean distance: the source compares
`Math.sqrt(dx*dx+dy*dy)` against non-negative thresholds, which we embed as
the equivalent comparison of squared distance against the squared threshold
(`sqrt` is strictly monotone on non-negatives).  Trigonometric factors
(`Math.sin`, `Math.cos`) are abstracted as an arbitrary input in `[-1, 1]`,
and `Math.random()` as an explicit oracle (a stream of values / indices)
passed to each operation, so every definition is executable.
-/

namespace SmallWorld

/-- Side classification of a lattice point relative to the reserved content
region (source: the string field `side`, one of `'left' | 'right' | 'content'`). -/
inductive Side where
  | left
  | right
  | content
deriving DecidableEq, Repr, Inhabited

/-- A lattice vertex, as pushed by `init` (source lines 405–417).  The
`phase` and `speed` fields of the source are consumed only inside the
abstracted trigonometric calls, so they are not recorded here. -/
structure Node where
  id : ℕ
  x : ℚ
  y : ℚ
  baseX : ℚ
  baseY : ℚ
  offsetX : ℚ
  offsetY : ℚ
  amplitude : ℚ
  side : Side
deriving DecidableEq, Repr, Inhabited

/-- A shortcut edge (source object literal, lines 508–517 / 547–556 / 609–618).
The source stores the Euclidean `distance`; we store its square `distSq`
(see the header comment: all uses compare distances against non-negative
thresholds, which squares preserve). -/
structure Shortcut where
  sourceId : ℕ
  targetId : ℕ
  side : Side
  opacity : ℚ
  fadingOut : Bool
  fadingIn : Bool
  isLong : Bool
  distSq : ℚ
deriving DecidableEq, Repr, Inhabited

/-- The numeric configuration fields set in the constructor (lines 40–59). -/
structure Params where
  contentWidth : ℚ
  contentPadding : ℚ
  shortcutDensity : ℚ
  minShortcutDistance : ℚ
  longDistanceThreshold : ℚ
  maxLongShortcutsPerSide : ℕ
  minLongShortcutsPerSide : ℕ
  shortcutFadeDuration : ℚ
  spacing : ℚ
deriving Repr

/-- The constructor's default configuration (lines 40–59; `spacing` is the
`baseSpacing = 60` set by `init`). -/
def defaults : Params :=
  { contentWidth := 900
    contentPadding := 50
    shortcutDensity := 8 / 100
    minShortcutDistance := 3
    longDistanceThreshold := 6
    maxLongShortcutsPerSide := 2
    minLongShortcutsPerSide := 1
    shortcutFadeDuration := 45
    spacing := 60 }

/-- Squared rest-position distance between two nodes
(source `getBaseDistance`, lines 427–432, squared). -/
def nodeDistSq (a b : Node) : ℚ :=
  (b.baseX - a.baseX) ^ 2 + (b.baseY - a.baseY) ^ 2

/-- Square of the minimum shortcut distance `spacing * minShortcutDistance`. -/
def minDistSq (p : Params) : ℚ := (p.spacing * p.minShortcutDistance) ^ 2

/-- Square of the long-distance threshold `spacing * longDistanceThreshold`. -/
def longDistSq (p : Params) : ℚ := (p.spacing * p.longDistanceThreshold) ^ 2

/-- Order-independent key of a node pair (source `getEdgeKey`, lines 462–464;
the source returns the string `"a-b"` with the smaller id first, which is in
bijection with the ordered pair below). -/
def getEdgeKey (id1 id2 : ℕ) : ℕ × ℕ :=
  if id1 < id2 then (id1, id2) else (id2, id1)

/-- The key of a shortcut's endpoint pair. -/
def edgeKeyOf (s : Shortcut) : ℕ × ℕ := getEdgeKey s.sourceId s.targetId

/-- Active long-shortcut count for a side
(source `countLongShortcutsForSide`, lines 451–457). -/
def countLongShortcutsForSide (shortcuts : List Shortcut) (side : Side) : ℕ :=
  (shortcuts.filter fun s => decide (s.side = side) && !s.fadingOut && s.isLong).length

/-! ### Poisson sampler (source `poissonRandom`, lines 336–347).
The source runs `do { k++; p *= Math.random() } while (p > L)` with
`L = Math.exp(-lambda)` and returns `k - 1`.  We pass the threshold `L`
directly (it is the only use of `lambda`) and the sequence of consumed
`Math.random()` draws explicitly; the helper returns the loop counter `k`
(the number of multiplications performed), or `none` if the supplied finite
draw list is exhausted before the product drops to the threshold. -/

/-- The do-while loop of `poissonRandom`: `p` is the running product; the
result counts how many draws were multiplied in before the product dropped
to or below `L`. -/
def poissonSteps (L : ℚ) (p : ℚ) : List ℚ → Option ℕ
  | [] => none
  | r :: rs =>
    let p2 := p * r
    if L < p2 then (poissonSteps L p2 rs).map (· + 1) else some 1

/-- `poissonRandom` (lines 336–347): the returned value is the loop counter
minus one, as a (possibly negative a priori) integer. -/
def poissonRandom (L : ℚ) (draws : List ℚ) : Option ℤ :=
  (poissonSteps L 1 draws).map fun k : ℕ => (k : ℤ) - 1

/-- Product of the first `m` draws (the value of `p` after `m` loop
iterations of `poissonRandom`). -/
def prefixProd (draws : List ℚ) (m : ℕ) : ℚ := (draws.take m).prod

/-! ### Shortcut fade update (source `updateShortcutFades`, lines 682–702).
The source iterates the array backwards, mutating each element in place and
splicing out the current element only; this elementwise pass (which
preserves the order of survivors) is exactly `List.filterMap` of the
per-edge step. -/

/-- Per-edge fade step (loop body, lines 686–700): `none` means the edge is
spliced out of the array. -/
def fadeOne (fadeStep : ℚ) (s : Shortcut) : Option Shortcut :=
  if s.fadingOut then
    let o := s.opacity - fadeStep
    if o ≤ 0 then none else some { s with opacity := o }
  else if s.fadingIn then
    let o := s.opacity + fadeStep
    if 1 ≤ o then some { s with opacity := 1, fadingIn := false }
    else some { s with opacity := o }
  else some s

/-- `updateShortcutFades` (lines 682–702), with `fadeStep = 1 / shortcutFadeDuration`. -/
def updateShortcutFades (fadeDuration : ℚ) (ss : List Shortcut) : List Shortcut :=
  ss.filterMap (fadeOne (1 / fadeDuration))

/-- A concrete fading-out edge used as a witness input. -/
def wOutEdge : Shortcut :=
  { sourceId := 0, targetId := 1, side := Side.left, opacity := 1,
    fadingOut := true, fadingIn := false, isLong := true, distSq := 160000 }

/-! ### Per-frame node motion (source `animate`, lines 844–851).
Each animating frame recomputes
`x = baseX + offsetX + sin(time*speed+phase) * amplitude` and
`y = baseY + offsetY + cos(time*speed*0.7+phase) * amplitude * 0.7`;
the trigonometric factors are abstracted as inputs `s`, `c` ranging over
`[-1, 1]` (the range of `Math.sin` / `Math.cos`). -/

/-- The per-frame x position (line 846–847). -/
def animateX (n : Node) (s : ℚ) : ℚ := n.baseX + n.offsetX + s * n.amplitude

/-- The per-frame y position (line 848–849). -/
def animateY (n : Node) (c : ℚ) : ℚ := n.baseY + n.offsetY + c * n.amplitude * (7/10)

/-- A node whose fields lie in the ranges produced by `init`
(`offsetX, offsetY ∈ [-7.5, 7.5)`, `amplitude ∈ [8, 20)`, lines 411–414),
chosen to violate the claimed amplitude bound. -/
def cexMotionNode : Node :=
  { id := 0, x := 0, y := 0, baseX := 0, baseY := 0,
    offsetX := 7, offsetY := 0, amplitude := 8, side := Side.left }

/-! ### Boundary transition opacity (source lines 138–161 and 175–289).
`updateBoundaryTransition` computes
`progress = easeOutCubic (min 1 (elapsed / duration))` and interpolates the
boundaries linearly; `getNodeTransitionOpacity` computes the directional
sweep opacity of a node with base x-coordinate `x` from the previous/target
bounds, the eased progress, and the 80-px fade zone. -/

/-- `1 - Math.pow(1 - progress, 3)` (lines 146, 183). -/
def easeOutCubic (q : ℚ) : ℚ := 1 - (1 - q) ^ 3

/-- `getNodeTransitionOpacity` (lines 175–289), as a function of the node's
base x and the transition state. -/
def getNodeTransitionOpacity
    (prevLeft prevRight targLeft targRight fadeWidth duration elapsed x : ℚ) : ℚ :=
  let rawProgress := min 1 (elapsed / duration)
  let progress := easeOutCubic rawProgress
  let contentCenter := (prevLeft + prevRight + targLeft + targRight) / 4
  if x < contentCenter then
    let currentBoundary := prevLeft + (targLeft - prevLeft) * progress
    if targLeft < prevLeft then
      if x < targLeft then 1
      else if targLeft ≤ x ∧ x < currentBoundary then
        max 0 (min 1 ((currentBoundary - x) / fadeWidth))
      else 0
    else
      if x < prevLeft then 1
      else if prevLeft ≤ x ∧ x < currentBoundary then
        if 0 < currentBoundary - prevLeft then
          min 1 ((x - prevLeft) / min fadeWidth (currentBoundary - prevLeft))
        else 0
      else 0
  else
    let currentBoundary := prevRight + (targRight - prevRight) * progress
    if targRight < prevRight then
      if prevRight < x then 1
      else if currentBoundary < x ∧ x ≤ prevRight then
        if 0 < prevRight - currentBoundary then
          min 1 ((prevRight - x) / min fadeWidth (prevRight - currentBoundary))
        else 0
      else 0
    else
      if targRight < x then 1
      else if currentBoundary < x ∧ x ≤ targRight then
        max 0 (min 1 ((x - currentBoundary) / fadeWidth))
      else 0

/-- `isNodeVisible` (lines 707–709): a node is visible outside the content
boundaries. -/
def isNodeVisibleAt (x contentLeft contentRight : ℚ) : Bool :=
  decide (x < contentLeft) || decide (contentRight < x)

/-- The binary no-transition opacity of `getNodeDrawOpacity` (lines 715–723). -/
def noTransitionOpacity (x contentLeft contentRight : ℚ) : ℚ :=
  if isNodeVisibleAt x contentLeft contentRight then 1 else 0

/-! ### Lattice generation (source `init`, lines 349–425).
`init` sizes the canvas to the viewport, derives the content bounds from
the menu state, computes base (menu-closed) bounds for side classification,
and fills a row-staggered triangular grid of jittered nodes, one
row/column beyond each viewport edge (`row`/`col` start at `-1`).
`Math.random()` is modelled by the oracle `rand`; each node consumes seven
draws in source order (offset-x, offset-y, jitter-x, jitter-y, phase,
amplitude, speed — phase and speed feed only the abstracted trigonometry). -/

/-- The content bounds computed by `init` (lines 359–366): a function of the
canvas width and menu state alone (`contentWidth = 900` and
`contentPadding = 50` are constructor constants), so regenerating with the
same inputs re-derives identical bounds by construction. -/
def computeContentBounds (canvasWidth : ℚ) (menuOpen : Bool) (menuWidth : ℚ) : ℚ × ℚ :=
  let availableWidth := if menuOpen then canvasWidth - menuWidth else canvasWidth
  let center := availableWidth / 2
  (max 0 (center - 900 / 2 - 50), center + 900 / 2 + 50)

/-- The side tag assigned at node creation (lines 396–403): `left` strictly
left of the base left bound, `right` strictly right of the base right bound,
otherwise `content`. -/
def classifySide (x baseContentLeft baseContentRight : ℚ) : Side :=
  if x < baseContentLeft then Side.left
  else if baseContentRight < x then Side.right
  else Side.content

/-- `rows = Math.ceil(height / (baseSpacing * 0.866)) + 2` (line 382). -/
def gridRowCount (h spacing : ℚ) : ℤ := ⌈h / (spacing * (866/1000))⌉ + 2

/-- `cols = Math.ceil(width / baseSpacing) + 2` (line 383). -/
def gridColCount (w spacing : ℚ) : ℤ := ⌈w / spacing⌉ + 2

/-- The `(row, col)` pairs visited by the nested loops (lines 388–389),
outer row from `-1` to `rows - 1`, inner col from `-1` to `cols - 1`,
given the loop iteration counts. -/
def gridCellsOf (nr nc : ℕ) : List (ℤ × ℤ) :=
  (List.range nr).flatMap fun ri =>
    (List.range nc).map fun ci => ((ri : ℤ) - 1, (ci : ℤ) - 1)

/-- All grid cells for a viewport. -/
def gridCells (w h spacing : ℚ) : List (ℤ × ℤ) :=
  gridCellsOf (gridRowCount h spacing + 1).toNat (gridColCount w spacing + 1).toNat

/-- One node as pushed by the loop body (lines 390–417).  `idx` is the value
of the `nodeId++` counter, which equals the node's position in the array.
JavaScript's `%` on a possibly negative `row` is truncated division
remainder, i.e. `Int.tmod`. -/
def mkGridNode (spacing bl br : ℚ) (rand : ℕ → ℚ) (idx : ℕ) (cell : ℤ × ℤ) : Node :=
  let row := cell.1
  let col := cell.2
  let randomOffsetX := (rand (7 * idx) - 1/2) * spacing * (6/10)
  let randomOffsetY := (rand (7 * idx + 1) - 1/2) * spacing * (6/10)
  let x := (col : ℚ) * spacing + ((Int.tmod row 2 : ℤ) : ℚ) * (spacing / 2) + randomOffsetX
  let y := (row : ℚ) * spacing * (866/1000) + randomOffsetY
  { id := idx, x := x, y := y, baseX := x, baseY := y,
    offsetX := rand (7 * idx + 2) * 15 - 15/2,
    offsetY := rand (7 * idx + 3) * 15 - 15/2,
    amplitude := 8 + rand (7 * idx + 5) * 12,
    side := classifySide x bl br }

/-- The node array built by `init` for a viewport (lines 377–419): ids are
assigned `0, 1, 2, …` in push order, and sides are classified against the
base (menu-closed) bounds. -/
def buildNodes (w h : ℚ) (rand : ℕ → ℚ) : List Node :=
  let bl := w / 2 - 900 / 2 - 50
  let br := w / 2 + 900 / 2 + 50
  let cells := gridCells w h 60
  (List.range cells.length).map fun i => mkGridNode 60 bl br rand i (cells.getD i (0, 0))

/-- Constant random oracle used by concrete witnesses of lattice generation. -/
def w7rand : ℕ → ℚ := fun _ => 1/2

/-- The node produced at loop cell `(row, col) = (-1, 3)` (array position 4)
for the 1200×800 viewport under the constant oracle `w7rand`:
`x = 3·60 + (-1)·30 + 0 = 150`, inside the `[100, 1100]` band, so it is
tagged `content`. -/
def w7node : Node :=
  { id := 4, x := 150, y := -(1299/25), baseX := 150, baseY := -(1299/25),
    offsetX := 0, offsetY := 0, amplitude := 14, side := Side.content }

/-! ### Shortcut creation (source lines 469–622).
The sampling loops consume `Math.floor(Math.random() * len)` index draws;
we model the random source as an oracle `draw : ℕ → ℕ` of which the code
takes `draw t % len` at stream position `t` (two draws per attempt).  All
loops are attempt-capped in the source, so they are modelled by structural
recursion on the remaining attempt budget.  The JavaScript `existingKeys`
set is initialised from the live shortcut array and grows by exactly the
keys pushed, so it always equals the key set of the current array; the
embedding therefore tests membership in `shortcuts.map edgeKeyOf`
directly. -/

/-- Loop state of `createShortcutsForSide`: the live shortcut array, the
`created` and `longCreated` counters, and the random stream position. -/
structure BuildSt where
  shortcuts : List Shortcut
  created : ℕ
  longCreated : ℕ
  t : ℕ
deriving Repr

/-- The steady-state edge pushed during initial population
(lines 508–517 and 547–556), with the squared distance stored. -/
def steadyShortcut (source target : Node) (side : Side) (isLong : Bool) (d2 : ℚ) : Shortcut :=
  { sourceId := source.id, targetId := target.id, side := side, opacity := 1,
    fadingOut := false, fadingIn := false, isLong := isLong, distSq := d2 }

/-- First loop of `createShortcutsForSide` (lines 490–520): sample pairs
until `minLongShortcutsPerSide` long edges exist, capped at 100 attempts
(the fuel argument). -/
def ensureLongLoop (p : Params) (draw : ℕ → ℕ) (sideNodes : List Node) (side : Side) :
    ℕ → BuildSt → BuildSt
  | 0, st => st
  | fuel + 1, st =>
    if p.minLongShortcutsPerSide ≤ st.longCreated then st
    else
      let len := sideNodes.length
      let si := draw st.t % len
      let ti := draw (st.t + 1) % len
      if si = ti then
        ensureLongLoop p draw sideNodes side fuel { st with t := st.t + 2 }
      else
        let source := sideNodes.getD si default
        let target := sideNodes.getD ti default
        let d2 := nodeDistSq source target
        if d2 < longDistSq p then
          ensureLongLoop p draw sideNodes side fuel { st with t := st.t + 2 }
        else if getEdgeKey source.id target.id ∈ st.shortcuts.map edgeKeyOf then
          ensureLongLoop p draw sideNodes side fuel { st with t := st.t + 2 }
        else
          ensureLongLoop p draw sideNodes side fuel
            { shortcuts := st.shortcuts ++ [steadyShortcut source target side true d2],
              created := st.created + 1, longCreated := st.longCreated + 1,
              t := st.t + 2 }

/-- Second loop of `createShortcutsForSide` (lines 523–559): fill the quota
up to `numShortcuts`, rejecting pairs closer than the minimum distance,
duplicate keys, and long pairs once `maxLongShortcutsPerSide` is reached;
capped at `numShortcuts * 10` attempts (the fuel argument). -/
def fillLoop (p : Params) (draw : ℕ → ℕ) (sideNodes : List Node) (side : Side)
    (numShortcuts : ℕ) : ℕ → BuildSt → BuildSt
  | 0, st => st
  | fuel + 1, st =>
    if numShortcuts ≤ st.created then st
    else
      let len := sideNodes.length
      let si := draw st.t % len
      let ti := draw (st.t + 1) % len
      if si = ti then
        fillLoop p draw sideNodes side numShortcuts fuel { st with t := st.t + 2 }
      else
        let source := sideNodes.getD si default
        let target := sideNodes.getD ti default
        let d2 := nodeDistSq source target
        if d2 < minDistSq p then
          fillLoop p draw sideNodes side numShortcuts fuel { st with t := st.t + 2 }
        else
          let isLong := decide (longDistSq p ≤ d2)
          if isLong && decide (p.maxLongShortcutsPerSide ≤ st.longCreated) then
            fillLoop p draw sideNodes side numShortcuts fuel { st with t := st.t + 2 }
          else if getEdgeKey source.id target.id ∈ st.shortcuts.map edgeKeyOf then
            fillLoop p draw sideNodes side numShortcuts fuel { st with t := st.t + 2 }
          else
            fillLoop p draw sideNodes side numShortcuts fuel
              { shortcuts := st.shortcuts ++ [steadyShortcut source target side isLong d2],
                created := st.created + 1,
                longCreated := st.longCreated + (if isLong then 1 else 0),
                t := st.t + 2 }

/-- `createShortcutsForSide` (lines 477–560). -/
def createShortcutsForSide (p : Params) (draw : ℕ → ℕ) (t0 : ℕ)
    (sideNodes : List Node) (side : Side) (shortcuts : List Shortcut) : List Shortcut :=
  if sideNodes.length < 2 then shortcuts
  else
    let numShortcuts := max 1 (⌊(sideNodes.length : ℚ) * p.shortcutDensity⌋.toNat)
    let st1 := ensureLongLoop p draw sideNodes side 100 ⟨shortcuts, 0, 0, t0⟩
    let st2 := fillLoop p draw sideNodes side numShortcuts (numShortcuts * 10) st1
    st2.shortcuts

/-- `buildInitialShortcuts` (lines 469–475).  The second call reads a fresh
region of the index oracle; since the oracle is universally quantified this
is only a bookkeeping convention. -/
def buildInitialShortcuts (p : Params) (draw : ℕ → ℕ) (nodes : List Node) : List Shortcut :=
  let leftNodes := nodes.filter fun n => decide (n.side = Side.left)
  let rightNodes := nodes.filter fun n => decide (n.side = Side.right)
  let ss1 := createShortcutsForSide p draw 0 leftNodes Side.left []
  createShortcutsForSide p draw 1000000 rightNodes Side.right ss1

/-- The fading-in replacement edge returned by `createSingleShortcut`
(lines 609–618). -/
def newShortcut (source target : Node) (side : Side) (isLong : Bool) (d2 : ℚ) : Shortcut :=
  { sourceId := source.id, targetId := target.id, side := side, opacity := 0,
    fadingOut := false, fadingIn := true, isLong := isLong, distSq := d2 }

/-- The attempt loop of `createSingleShortcut` (lines 582–619); `attempts`
carries the already-incremented attempt counter so that the preference
checks compare it against `maxAttempts / 2 = 25`. -/
def singleLoop (p : Params) (draw : ℕ → ℕ) (sideNodes : List Node)
    (keys : List (ℕ × ℕ)) (side : Side) (canAddLong needsLong : Bool)
    (preferLong : Option Bool) : ℕ → ℕ → ℕ → Option Shortcut
  | 0, _, _ => none
  | fuel + 1, t, attempts =>
    let a := attempts + 1
    let len := sideNodes.length
    let si := draw t % len
    let ti := draw (t + 1) % len
    if si = ti then
      singleLoop p draw sideNodes keys side canAddLong needsLong preferLong fuel (t + 2) a
    else
      let source := sideNodes.getD si default
      let target := sideNodes.getD ti default
      let d2 := nodeDistSq source target
      if d2 < minDistSq p then
        singleLoop p draw sideNodes keys side canAddLong needsLong preferLong fuel (t + 2) a
      else
        let isLong := decide (longDistSq p ≤ d2)
        if isLong && !canAddLong then
          singleLoop p draw sideNodes keys side canAddLong needsLong preferLong fuel (t + 2) a
        else if needsLong && !isLong then
          singleLoop p draw sideNodes keys side canAddLong needsLong preferLong fuel (t + 2) a
        else if preferLong == some true && !isLong && decide (a < 25) then
          singleLoop p draw sideNodes keys side canAddLong needsLong preferLong fuel (t + 2) a
        else if preferLong == some false && isLong && decide (a < 25) then
          singleLoop p draw sideNodes keys side canAddLong needsLong preferLong fuel (t + 2) a
        else if getEdgeKey source.id target.id ∈ keys then
          singleLoop p draw sideNodes keys side canAddLong needsLong preferLong fuel (t + 2) a
        else some (newShortcut source target side isLong d2)

/-- `createSingleShortcut` (lines 567–622). -/
def createSingleShortcut (p : Params) (draw : ℕ → ℕ) (t0 : ℕ) (nodes : List Node)
    (shortcuts : List Shortcut) (side : Side) (preferLong : Option Bool) : Option Shortcut :=
  let sideNodes := nodes.filter fun n => decide (n.side = side)
  if sideNodes.length < 2 then none
  else
    let keys := shortcuts.map edgeKeyOf
    let currentLongCount := countLongShortcutsForSide shortcuts side
    let canAddLong := decide (currentLongCount < p.maxLongShortcutsPerSide)
    let needsLong := decide (currentLongCount < p.minLongShortcutsPerSide)
    singleLoop p draw sideNodes keys side canAddLong needsLong preferLong 50 t0 0

/-! ### Stochastic rewiring (source `checkAndSwapShortcuts`, lines 628–677).
The `[...array].sort(() => Math.random() - 0.5)` shuffle is abstracted as
an oracle `shuffle`; theorems assume at most that its output's elements
come from its input.  The in-place `shortcut.fadingOut = true` mutation of
an object held by the live array is modelled by marking the edge with the
same endpoint key, which is the same edge whenever the key-uniqueness
invariant (claim C4) holds. -/

/-- `shortcuts.filter(s => !s.fadingOut)` (line 635). -/
def activeShortcuts (ss : List Shortcut) : List Shortcut := ss.filter fun s => !s.fadingOut

/-- `selectSwappable` (lines 647–656): when only the minimum number of long
shortcuts remains and mediums exist, offer only the mediums for removal. -/
def selectSwappable (p : Params) (shortcuts : List Shortcut) : List Shortcut :=
  let longOnes := shortcuts.filter fun s => s.isLong
  let mediumOnes := shortcuts.filter fun s => !s.isLong
  if longOnes.length ≤ p.minLongShortcutsPerSide ∧ 0 < mediumOnes.length then mediumOnes
  else shortcuts

/-- Set `fadingOut` on the edge with the given endpoint key (the in-place
mutation of line 669 seen through the array). -/
def markFadingOutByKey (k : ℕ × ℕ) (ss : List Shortcut) : List Shortcut :=
  ss.map fun s => if edgeKeyOf s = k then { s with fadingOut := true } else s

/-- One iteration of the removal/replacement loop (lines 668–676): mark the
selected edge, then try to push one same-side replacement preferring the
removed edge's length class. -/
def swapStep (p : Params) (draw : ℕ → ℕ) (nodes : List Node)
    (st : List Shortcut × ℕ) (r : Shortcut) : List Shortcut × ℕ :=
  let marked := markFadingOutByKey (edgeKeyOf r) st.1
  match createSingleShortcut p draw st.2 nodes marked r.side (some r.isLong) with
  | some sc => (marked ++ [sc], st.2 + 100)
  | none => (marked, st.2 + 100)

/-- `checkAndSwapShortcuts` (lines 628–677) given the Poisson draw
`numSwaps`. -/
def checkAndSwapShortcuts (p : Params) (draw : ℕ → ℕ) (t0 : ℕ)
    (shuffle : List Shortcut → List Shortcut) (numSwaps : ℕ)
    (nodes : List Node) (shortcuts : List Shortcut) : List Shortcut :=
  if numSwaps = 0 then shortcuts
  else
    let active := activeShortcuts shortcuts
    let actualSwaps := min numSwaps active.length
    if actualSwaps = 0 then shortcuts
    else
      let leftShortcuts := active.filter fun s => decide (s.side = Side.left)
      let rightShortcuts := active.filter fun s => decide (s.side = Side.right)
      let allSwappable := selectSwappable p leftShortcuts ++ selectSwappable p rightShortcuts
      if allSwappable.length = 0 then shortcuts
      else
        let toRemove := (shuffle allSwappable).take (min actualSwaps allSwappable.length)
        (toRemove.foldl (swapStep p draw nodes) (shortcuts, t0)).1

/-- A full rewiring check (lines 628–632): sample `numSwaps` from the
Poisson loop, then swap.  (On a draw list too short for the sampler to
terminate the model leaves the state unchanged; the real loop would keep
consuming fresh randomness.) -/
def rewireTick (p : Params) (poissonL : ℚ) (poissonDraws : List ℚ) (draw : ℕ → ℕ)
    (t0 : ℕ) (shuffle : List Shortcut → List Shortcut)
    (nodes : List Node) (shortcuts : List Shortcut) : List Shortcut :=
  match poissonRandom poissonL poissonDraws with
  | some n => checkAndSwapShortcuts p draw t0 shuffle n.toNat nodes shortcuts
  | none => shortcuts

/-- Two left-side nodes 60 apart at rest, closer than the 180-px default
minimum shortcut distance. -/
def w8nodeA : Node :=
  { id := 0, x := 0, y := 0, baseX := 0, baseY := 0,
    offsetX := 0, offsetY := 0, amplitude := 10, side := Side.left }

/-- See `w8nodeA`. -/
def w8nodeB : Node :=
  { id := 1, x := 60, y := 0, baseX := 60, baseY := 0,
    offsetX := 0, offsetY := 0, amplitude := 10, side := Side.left }

/-- A left-side node at the origin, far from `farNodeB`. -/
def farNodeA : Node :=
  { id := 0, x := 0, y := 0, baseX := 0, baseY := 0,
    offsetX := 0, offsetY := 0, amplitude := 10, side := Side.left }

/-- A left-side node 400 px below `farNodeA`: squared distance 160000,
beyond the squared long threshold `(60·6)² = 129600`. -/
def farNodeB : Node :=
  { id := 1, x := 0, y := 400, baseX := 0, baseY := 400,
    offsetX := 0, offsetY := 0, amplitude := 10, side := Side.left }

/-- The fading-in long replacement between the two far nodes. -/
def farShortcut : Shortcut := newShortcut farNodeA farNodeB Side.left true 160000

/-- Iterated application of the per-edge fade step to one tracked edge: the
fate of a single shortcut across successive `updateShortcutFades` frames
(`none` once the edge has been spliced out). -/
def fadeIter (step : ℚ) (s : Shortcut) : ℕ → Option Shortcut
  | 0 => some s
  | n + 1 => (fadeIter step s n).bind (fadeOne step)

/-- A half-faded-in edge (both fade flags clear of `fadingOut`). -/
def w9edge : Shortcut :=
  { sourceId := 0, targetId := 1, side := Side.left, opacity := 1/2,
    fadingOut := false, fadingIn := true, isLong := false, distSq := 40000 }

/-- The same edge after `checkAndSwapShortcuts` marked it: both flags set. -/
def w9edgeOut : Shortcut := { w9edge with fadingOut := true }

/-- The single steady long shortcut of the counterexample state. -/
def cexShortcut : Shortcut := steadyShortcut farNodeA farNodeB Side.left true 160000

/-- A steady medium shortcut on the left side with a fresh key. -/
def medShortcut : Shortcut :=
  { sourceId := 2, targetId := 3, side := Side.left, opacity := 1,
    fadingOut := false, fadingIn := false, isLong := false, distSq := 40000 }

theorem poissonSteps_pos (L p : ℚ) (draws : List ℚ) (k : ℕ)
    (h : poissonSteps L p draws = some k) : 1 ≤ k := by
  induction draws generalizing p k with
  | nil => simp [poissonSteps] at h
  | cons r rs ih =>
    simp only [poissonSteps] at h
    split at h
    · rcases Option.map_eq_some'.mp h with ⟨k', hk', rfl⟩
      omega
    · simp at h
      omega

theorem poissonSteps_le_length (L p : ℚ) (draws : List ℚ) (k : ℕ)
    (h : poissonSteps L p draws = some k) : k ≤ draws.length := by
  induction draws generalizing p k with
  | nil => simp [poissonSteps] at h
  | cons r rs ih =>
    simp only [poissonSteps] at h
    split at h
    · rcases Option.map_eq_some'.mp h with ⟨k', hk', rfl⟩
      have := ih _ _ hk'
      simp
      omega
    · simp at h
      simp [← h]

theorem prefixProd_cons (r : ℚ) (rs : List ℚ) (m : ℕ) :
    prefixProd (r :: rs) (m + 1) = r * prefixProd rs m := by
  simp [prefixProd, List.take_succ_cons]

/-- The do-while loop returns `some k` exactly when `k` is the first number of
multiplications after which the running product is `≤ L`; every strictly
shorter non-empty prefix product is still `> L`. -/
theorem poissonSteps_spec (L : ℚ) (draws : List ℚ) :
    ∀ (p : ℚ) (k : ℕ), poissonSteps L p draws = some k →
      p * prefixProd draws k ≤ L ∧ ∀ j, 1 ≤ j → j < k → L < p * prefixProd draws j := by
  induction draws with
  | nil => intro p k h; simp [poissonSteps] at h
  | cons r rs ih =>
    intro p k h
    simp only [poissonSteps] at h
    split at h
    · next hgt =>
      rcases Option.map_eq_some'.mp h with ⟨k', hk', rfl⟩
      obtain ⟨h1, h2⟩ := ih (p * r) k' hk'
      refine ⟨?_, ?_⟩
      · rw [prefixProd_cons]
        calc p * (r * prefixProd rs k') = p * r * prefixProd rs k' := by ring
          _ ≤ L := h1
      · intro j hj1 hjk
        match j, hj1 with
        | 1, _ =>
          have : prefixProd (r :: rs) 1 = r * prefixProd rs 0 := prefixProd_cons r rs 0
          rw [this]
          simpa [prefixProd] using hgt
        | (j' + 2), _ =>
          rw [prefixProd_cons]
          have := h2 (j' + 1) (by omega) (by omega)
          calc L < p * r * prefixProd rs (j' + 1) := this
            _ = p * (r * prefixProd rs (j' + 1)) := by ring
    · simp at h
      subst h
      refine ⟨?_, by omega⟩
      rename_i hle
      have : prefixProd (r :: rs) 1 = r * prefixProd rs 0 := prefixProd_cons r rs 0
      rw [this]
      simp only [prefixProd, List.take_zero, List.prod_nil, mul_one]
      exact not_lt.mp hle

/-- C5: for every lambda > 0 (modelled by its threshold `L = e^(-lambda)`,
which lies in `(0,1)`) and every sequence of uniform draws in `[0,1)` on
which the loop terminates, `poissonRandom` returns the number of
multiplications performed minus one — the draws are multiplied together
until the running product drops to or below the threshold — and the returned
value is a non-negative integer. -/
theorem C5_poissonRandom_knuth (L : ℚ) (draws : List ℚ) (n : ℤ)
    (hL0 : 0 < L) (hL1 : L < 1)
    (hdraws : ∀ r ∈ draws, 0 ≤ r ∧ r < 1)
    (h : poissonRandom L draws = some n) :
    0 ≤ n ∧
    ∃ k : ℕ, poissonSteps L 1 draws = some k ∧ n = (k : ℤ) - 1 ∧
      1 ≤ k ∧ k ≤ draws.length ∧
      prefixProd draws k ≤ L ∧ ∀ j, 1 ≤ j → j < k → L < prefixProd draws j := by
  simp only [poissonRandom] at h
  rcases Option.map_eq_some'.mp h with ⟨k, hk, rfl⟩
  have hk1 : 1 ≤ k := poissonSteps_pos L 1 draws k hk
  have hklen : k ≤ draws.length := poissonSteps_le_length L 1 draws k hk
  obtain ⟨hprod, hpre⟩ := poissonSteps_spec L draws 1 k hk
  refine ⟨by omega, k, hk, rfl, hk1, hklen, by simpa using hprod, ?_⟩
  intro j hj1 hjk
  simpa using hpre j hj1 hjk

/-- Witness for C5 at `L = 7/10`, `draws = [9/10, 1/2]`: the sampler performs
two multiplications (`9/10 > 7/10`, then `9/20 ≤ 7/10`) and returns `1`. -/
theorem C5_poissonRandom_knuth_witness :
    0 ≤ (1 : ℤ) ∧
    ∃ k : ℕ, poissonSteps (7/10) 1 [9/10, 1/2] = some k ∧ (1 : ℤ) = (k : ℤ) - 1 ∧
      1 ≤ k ∧ k ≤ ([(9:ℚ)/10, 1/2]).length ∧
      prefixProd [9/10, 1/2] k ≤ 7/10 ∧
      ∀ j, 1 ≤ j → j < k → 7/10 < prefixProd [(9:ℚ)/10, 1/2] j :=
  C5_poissonRandom_knuth (7/10) [9/10, 1/2] 1 (by norm_num) (by norm_num)
    (by intro r hr; fin_cases hr <;> norm_num)
    (by norm_num [poissonRandom, poissonSteps])

/-- The fading-out branch of the per-edge step (lines 688–693), independent
of the `fadingIn` flag. -/
theorem fadeOne_fadingOut (step : ℚ) (s : Shortcut) (h : s.fadingOut = true) :
    fadeOne step s =
      if s.opacity - step ≤ 0 then none
      else some { s with opacity := s.opacity - step } := by
  simp [fadeOne, h]

/-- The fading-in branch of the per-edge step (lines 694–700). -/
theorem fadeOne_fadingIn (step : ℚ) (s : Shortcut)
    (hOut : s.fadingOut = false) (hIn : s.fadingIn = true) :
    fadeOne step s =
      if 1 ≤ s.opacity + step then some { s with opacity := 1, fadingIn := false }
      else some { s with opacity := s.opacity + step } := by
  simp [fadeOne, hOut, hIn]

/-- The steady branch of the per-edge step: nothing happens. -/
theorem fadeOne_steady (step : ℚ) (s : Shortcut)
    (hOut : s.fadingOut = false) (hIn : s.fadingIn = false) :
    fadeOne step s = some s := by
  simp [fadeOne, hOut, hIn]

/-- `updateShortcutFades` on a one-element array is the per-edge step. -/
theorem updateShortcutFades_singleton (d : ℚ) (s : Shortcut) :
    updateShortcutFades d [s] = (fadeOne (1 / d) s).toList := by
  cases hfo : fadeOne (1 / d) s <;>
    simp only [updateShortcutFades, List.filterMap_cons, List.filterMap_nil, hfo,
      Option.toList]

/-- C6: each call to `updateShortcutFades` acts on every edge independently
(it distributes over list concatenation), and on a single edge it: decreases
a `fadingOut` edge's opacity by exactly `1/shortcutFadeDuration`, removing
the edge in the same call once the stepped opacity is `≤ 0`; increases a
`fadingIn` (non-`fadingOut`) edge's opacity by exactly
`1/shortcutFadeDuration`, clamping to exactly `1` and clearing `fadingIn`
once it reaches `≥ 1`; and leaves an edge with neither flag unchanged. -/
theorem C6_updateShortcutFades_per_edge (d : ℚ) (s : Shortcut) (ss₁ ss₂ : List Shortcut) :
    updateShortcutFades d (ss₁ ++ ss₂) =
        updateShortcutFades d ss₁ ++ updateShortcutFades d ss₂ ∧
    (s.fadingOut = true →
      updateShortcutFades d [s] =
        if s.opacity - 1 / d ≤ 0 then [] else [{ s with opacity := s.opacity - 1 / d }]) ∧
    (s.fadingOut = false → s.fadingIn = true →
      updateShortcutFades d [s] =
        if 1 ≤ s.opacity + 1 / d then [{ s with opacity := 1, fadingIn := false }]
        else [{ s with opacity := s.opacity + 1 / d }]) ∧
    (s.fadingOut = false → s.fadingIn = false → updateShortcutFades d [s] = [s]) := by
  refine ⟨List.filterMap_append ss₁ ss₂ _, ?_, ?_, ?_⟩
  · intro hOut
    rw [updateShortcutFades_singleton, fadeOne_fadingOut _ _ hOut]
    split <;> rfl
  · intro hOut hIn
    rw [updateShortcutFades_singleton, fadeOne_fadingIn _ _ hOut hIn]
    split <;> rfl
  · intro hOut hIn
    rw [updateShortcutFades_singleton, fadeOne_steady _ _ hOut hIn]
    rfl

/-- Witness for C6 on a concrete fading-out edge (`opacity 1`, duration 45):
the call steps its opacity to exactly `1 - 1/45 = 44/45`. -/
theorem C6_updateShortcutFades_per_edge_witness :
    updateShortcutFades 45 ([] ++ []) = updateShortcutFades 45 [] ++ updateShortcutFades 45 [] ∧
    updateShortcutFades 45 [wOutEdge] =
      if wOutEdge.opacity - 1 / 45 ≤ 0 then [] else
        [{ wOutEdge with opacity := wOutEdge.opacity - 1 / 45 }] := by
  obtain ⟨h1, h2, _, _⟩ := C6_updateShortcutFades_per_edge 45 wOutEdge [] []
  exact ⟨h1, h2 rfl⟩

/-- Counterexample to C3 as stated: a node with jitter offset `offsetX = 7`
and `amplitude = 8` (both within `init`'s ranges) at a frame where the sine
factor is `9/10` sits `71/5 > 8` away from its base x, so the rendered
position is NOT within `amplitude` of the base position. -/
theorem C3_counterexample :
    (-(15/2) ≤ cexMotionNode.offsetX ∧ cexMotionNode.offsetX < 15/2) ∧
    (8 ≤ cexMotionNode.amplitude ∧ cexMotionNode.amplitude < 20) ∧
    |(9 : ℚ)/10| ≤ 1 ∧
    ¬ |animateX cexMotionNode (9/10) - cexMotionNode.baseX| ≤ cexMotionNode.amplitude := by
  norm_num [cexMotionNode, animateX, abs_le]

/-- C3 amended: the rendered coordinates stay within `amplitude` of the base
position only up to the fixed per-node jitter offset: for any trig factors
in `[-1,1]` and offsets in the `[-7.5, 7.5]` range produced by `init`,
`|x − baseX| ≤ amplitude + 7.5` and `|y − baseY| ≤ amplitude + 7.5`
(the y excursion is in fact at most `0.7·amplitude + 7.5`). -/
theorem C3_amplitude_bound_amended (n : Node) (s c : ℚ)
    (hs : |s| ≤ 1) (hc : |c| ≤ 1)
    (hox : |n.offsetX| ≤ 15/2) (hoy : |n.offsetY| ≤ 15/2)
    (hamp : 0 ≤ n.amplitude) :
    |animateX n s - n.baseX| ≤ n.amplitude + 15/2 ∧
    |animateY n c - n.baseY| ≤ n.amplitude + 15/2 := by
  have habs : |n.amplitude| = n.amplitude := abs_of_nonneg hamp
  constructor
  · have hrw : animateX n s - n.baseX = n.offsetX + s * n.amplitude := by
      rw [animateX]; ring
    rw [hrw]
    calc |n.offsetX + s * n.amplitude| ≤ |n.offsetX| + |s * n.amplitude| := abs_add _ _
      _ = |n.offsetX| + |s| * n.amplitude := by rw [abs_mul, habs]
      _ ≤ 15/2 + 1 * n.amplitude := by
            gcongr
      _ = n.amplitude + 15/2 := by ring
  · have hrw : animateY n c - n.baseY = n.offsetY + c * n.amplitude * (7/10) := by
      rw [animateY]; ring
    rw [hrw]
    calc |n.offsetY + c * n.amplitude * (7/10)|
        ≤ |n.offsetY| + |c * n.amplitude * (7/10)| := abs_add _ _
      _ = |n.offsetY| + |c| * n.amplitude * (7/10) := by
            rw [abs_mul, abs_mul, habs]
            norm_num
      _ ≤ 15/2 + 1 * n.amplitude * (7/10) := by gcongr
      _ ≤ 15/2 + n.amplitude := by nlinarith
      _ = n.amplitude + 15/2 := by ring

/-- Witness for the amended C3 at the concrete node above with trig factors
`1/2` and `-1`. -/
theorem C3_amplitude_bound_amended_witness :
    |animateX cexMotionNode (1/2) - cexMotionNode.baseX| ≤ cexMotionNode.amplitude + 15/2 ∧
    |animateY cexMotionNode (-1) - cexMotionNode.baseY| ≤ cexMotionNode.amplitude + 15/2 :=
  C3_amplitude_bound_amended cexMotionNode (1/2) (-1)
    (by norm_num [abs_le]) (by norm_num [abs_le]) (by norm_num [cexMotionNode, abs_le])
    (by norm_num [cexMotionNode, abs_le]) (by norm_num [cexMotionNode])

/-- Counterexample to C2 as stated, in both of its failure modes.
First: previous bounds `[0, 1000]`, target bounds `[200, 1200]` (menu
closing), fade width 80, duration 300 ms.  At `elapsed = 300 = duration`
the node with base x `10` still gets opacity `10/80 = 1/8` from the
reveal-zone fade, while the binary no-transition result for the target
bounds is `1`.  Second: previous bounds `[0, 1000]`, target bounds
`[1200, 2200]`.  Here the four-boundary mean is `1100`, so the node with
base x `1150` — which lies left of `targetContentLeft = 1200`, hence in
the margin where the binary result is `1` — is handled by the right-side
branch (lines 272–287) and gets opacity `0`, even though it is in no fade
zone at all. -/
theorem C2_counterexample :
    (getNodeTransitionOpacity 0 1000 200 1200 80 300 300 10 = 1/8 ∧
      noTransitionOpacity 10 200 1200 = 1 ∧ ((1 : ℚ)/8) ≠ 1) ∧
    (getNodeTransitionOpacity 0 1000 1200 2200 80 300 300 1150 = 0 ∧
      noTransitionOpacity 1150 1200 2200 = 1 ∧ ((0 : ℚ)) ≠ 1) := by
  constructor
  · refine ⟨?_, by norm_num [noTransitionOpacity, isNodeVisibleAt], by norm_num⟩
    norm_num [getNodeTransitionOpacity, easeOutCubic]
  · refine ⟨?_, by norm_num [noTransitionOpacity, isNodeVisibleAt], by norm_num⟩
    norm_num [getNodeTransitionOpacity, easeOutCubic]

/-- C2 amended: once `elapsed ≥ duration` the transition opacity equals the
binary no-transition result for the target bounds, provided
(a) the target bounds straddle the four-boundary mean
`(prevLeft + prevRight + targLeft + targRight) / 4` that the source uses to
split points into a left and a right case (`hcl`/`hcr`; without this a
point lying between the mean and a target bound is handled by the wrong
side's branch and gets `0` instead of `1` — the counterexample's second
part), and (b) the point is not in a zone that the transition is
*revealing* (left boundary moving right on the point's left side, or right
boundary moving left on its right side) within `min fadeWidth
sweptDistance` of the previous boundary — such points keep a partial
opacity strictly below 1 (the counterexample's first part).  The two
`hex?` hypotheses exclude exactly the zones of (b). -/
theorem C2_converges_outside_reveal_zone_amended
    (pL pR tL tR fW duration elapsed x : ℚ)
    (hd : 0 < duration) (he : duration ≤ elapsed) (hfW : 0 < fW)
    (hcl : tL ≤ (pL + pR + tL + tR) / 4)
    (hcr : (pL + pR + tL + tR) / 4 ≤ tR)
    (hexL : x < (pL + pR + tL + tR) / 4 → pL < tL →
      x < pL ∨ pL + min fW (tL - pL) ≤ x)
    (hexR : (pL + pR + tL + tR) / 4 ≤ x → tR < pR →
      x ≤ pR - min fW (pR - tR) ∨ pR < x) :
    getNodeTransitionOpacity pL pR tL tR fW duration elapsed x =
      noTransitionOpacity x tL tR := by
  have h1 : min 1 (elapsed / duration) = 1 :=
    min_eq_left ((one_le_div hd).mpr he)
  simp only [getNodeTransitionOpacity, h1]
  have h2 : easeOutCubic 1 = 1 := by norm_num [easeOutCubic]
  rw [h2]
  have h3 : pL + (tL - pL) * 1 = tL := by ring
  have h4 : pR + (tR - pR) * 1 = tR := by ring
  rw [h3, h4]
  by_cases hside : x < (pL + pR + tL + tR) / 4
  · rw [if_pos hside]
    have hxtR : ¬ tR < x := not_lt.mpr (le_of_lt (lt_of_lt_of_le hside hcr))
    by_cases hmv : tL < pL
    · rw [if_pos hmv]
      by_cases hx : x < tL
      · rw [if_pos hx]
        simp [noTransitionOpacity, isNodeVisibleAt, hx]
      · rw [if_neg hx, if_neg (fun h => hx h.2)]
        simp [noTransitionOpacity, isNodeVisibleAt, hx, hxtR]
    · rw [if_neg hmv]
      by_cases hx : x < pL
      · rw [if_pos hx]
        have hxtL : x < tL := lt_of_lt_of_le hx (not_lt.mp hmv)
        simp [noTransitionOpacity, isNodeVisibleAt, hxtL]
      · rw [if_neg hx]
        by_cases hx2 : pL ≤ x ∧ x < tL
        · rw [if_pos hx2]
          have hrev : 0 < tL - pL := by
            have := hx2.1
            have := hx2.2
            linarith
          rw [if_pos hrev]
          rcases hexL hside (by linarith) with hlt | hge
          · exact absurd hlt hx
          · have hm : 0 < min fW (tL - pL) := lt_min hfW hrev
            have hone : 1 ≤ (x - pL) / min fW (tL - pL) :=
              (one_le_div hm).mpr (by linarith)
            rw [min_eq_left hone]
            simp [noTransitionOpacity, isNodeVisibleAt, hx2.2]
        · rw [if_neg hx2]
          have hxtL : ¬ x < tL := fun h => hx2 ⟨not_lt.mp hx, h⟩
          simp [noTransitionOpacity, isNodeVisibleAt, hxtL, hxtR]
  · rw [if_neg hside]
    have hxtL : ¬ x < tL := not_lt.mpr (le_trans hcl (not_lt.mp hside))
    by_cases hmv : tR < pR
    · rw [if_pos hmv]
      by_cases hx : pR < x
      · rw [if_pos hx]
        have hxgtR : tR < x := lt_trans hmv hx
        simp [noTransitionOpacity, isNodeVisibleAt, hxtL, hxgtR]
      · rw [if_neg hx]
        by_cases hx2 : tR < x ∧ x ≤ pR
        · rw [if_pos hx2]
          have hrev : 0 < pR - tR := by linarith
          rw [if_pos hrev]
          rcases hexR (not_lt.mp hside) hmv with hle | hgt
          · have hm : 0 < min fW (pR - tR) := lt_min hfW hrev
            have hone : 1 ≤ (pR - x) / min fW (pR - tR) :=
              (one_le_div hm).mpr (by linarith)
            rw [min_eq_left hone]
            simp [noTransitionOpacity, isNodeVisibleAt, hxtL, hx2.1]
          · exact absurd hgt hx
        · rw [if_neg hx2]
          have hxtR : ¬ tR < x := fun h => hx2 ⟨h, not_lt.mp hx⟩
          simp [noTransitionOpacity, isNodeVisibleAt, hxtL, hxtR]
    · rw [if_neg hmv]
      by_cases hx : tR < x
      · rw [if_pos hx]
        simp [noTransitionOpacity, isNodeVisibleAt, hx]
      · rw [if_neg hx, if_neg (fun h => hx h.1)]
        simp [noTransitionOpacity, isNodeVisibleAt, hxtL, hx]

/-- Witness for the amended C2: same transition as the counterexample but a
node at `x = 150`, clear of the 80-px reveal zone `[0, 80)`; at
`elapsed = duration` its opacity agrees with the binary target-bounds
result, namely 1. -/
theorem C2_converges_outside_reveal_zone_amended_witness :
    getNodeTransitionOpacity 0 1000 200 1200 80 300 300 150 =
      noTransitionOpacity 150 200 1200 ∧
    noTransitionOpacity 150 200 1200 = 1 :=
  ⟨C2_converges_outside_reveal_zone_amended 0 1000 200 1200 80 300 300 150
      (by norm_num) (by norm_num) (by norm_num) (by norm_num) (by norm_num)
      (fun _ _ => Or.inr (by norm_num))
      (fun h _ => absurd h (by norm_num)),
    by norm_num [noTransitionOpacity, isNodeVisibleAt]⟩

/-- A node's stored side is the classification of its own base x. -/
theorem mkGridNode_side (spacing bl br : ℚ) (rand : ℕ → ℚ) (idx : ℕ) (cell : ℤ × ℤ) :
    (mkGridNode spacing bl br rand idx cell).side =
      classifySide (mkGridNode spacing bl br rand idx cell).baseX bl br := rfl

/-- C7: for a 1200×800 viewport with the menu closed, the derived bounds are
exactly `(100, 1100)` (a deterministic function of the inputs — see
`computeContentBounds`), and no generated point whose base x lies inside the
closed band `[100, 1100]` is classified `left` or `right`: it is tagged
`content`. -/
theorem C7_content_band_classification (rand : ℕ → ℚ) (n : Node)
    (hmem : n ∈ buildNodes 1200 800 rand)
    (hl : 100 ≤ n.baseX) (hr : n.baseX ≤ 1100) :
    computeContentBounds 1200 false 0 = (100, 1100) ∧ n.side = Side.content := by
  constructor
  · simp only [computeContentBounds]
    norm_num
  · simp only [buildNodes] at hmem
    rcases List.mem_map.mp hmem with ⟨i, -, rfl⟩
    rw [mkGridNode_side]
    have hbl : (1200 : ℚ) / 2 - 900 / 2 - 50 = 100 := by norm_num
    have hbr : (1200 : ℚ) / 2 + 900 / 2 + 50 = 1100 := by norm_num
    rw [hbl, hbr] at hl hr ⊢
    rw [classifySide.eq_def, if_neg (not_lt.mpr hl), if_neg (not_lt.mpr hr)]

/-- For the 1200×800 viewport the loops run 19 rows × 23 columns. -/
theorem gridCells_1200_800 : gridCells 1200 800 60 = gridCellsOf 19 23 := by
  have hrow : gridRowCount 800 60 = 18 := by
    have hceil : ⌈(800 : ℚ) / (60 * (866/1000))⌉ = 16 := by
      rw [Int.ceil_eq_iff]
      norm_num
    simp only [gridRowCount, hceil]
    norm_num
  have hcol : gridColCount 1200 60 = 22 := by
    have hceil : ⌈(1200 : ℚ) / 60⌉ = 20 := by
      rw [Int.ceil_eq_iff]
      norm_num
    simp only [gridColCount, hceil]
    norm_num
  rw [gridCells, hrow, hcol]
  rfl

set_option maxRecDepth 20000 in
theorem w7node_mem : w7node ∈ buildNodes 1200 800 w7rand := by
  simp only [buildNodes]
  refine List.mem_map.mpr ⟨4, List.mem_range.mpr ?_, ?_⟩
  · rw [gridCells_1200_800]
    decide
  · have hcell : (gridCells 1200 800 60).getD 4 (0, 0) = (-1, 3) := by
      rw [gridCells_1200_800]
      decide
    rw [hcell]
    have htm : Int.tmod (-1) 2 = -1 := by decide
    simp only [mkGridNode, classifySide, w7rand, w7node, htm]
    norm_num [Node.mk.injEq]

/-- Witness for C7 at the concrete node above. -/
theorem C7_content_band_classification_witness :
    computeContentBounds 1200 false 0 = (100, 1100) ∧ w7node.side = Side.content :=
  C7_content_band_classification w7rand w7node w7node_mem
    (by norm_num [w7node]) (by norm_num [w7node])

/-! ### Structural lemmas about the shortcut operations -/

/-- Appending an edge with a fresh key preserves key uniqueness. -/
theorem nodupKeys_push (ss : List Shortcut) (e : Shortcut)
    (hn : (ss.map edgeKeyOf).Nodup) (hk : edgeKeyOf e ∉ ss.map edgeKeyOf) :
    ((ss ++ [e]).map edgeKeyOf).Nodup := by
  rw [List.map_append]
  simp only [List.map_cons, List.map_nil]
  rw [List.nodup_append]
  refine ⟨hn, List.nodup_singleton _, ?_⟩
  intro a ha hb
  simp only [List.mem_singleton] at hb
  subst hb
  exact hk ha

/-- Marking an edge as fading out does not change its endpoint key. -/
theorem markFadingOutByKey_keys (k : ℕ × ℕ) (ss : List Shortcut) :
    (markFadingOutByKey k ss).map edgeKeyOf = ss.map edgeKeyOf := by
  induction ss with
  | nil => rfl
  | cons s ss ih =>
    simp only [markFadingOutByKey, List.map_cons] at ih ⊢
    rw [ih]
    congr 1
    split <;> rfl

/-- Elements drawn by `getD` at an in-range index belong to the list. -/
theorem getD_mem_of_lt {l : List Node} {i : ℕ} (h : i < l.length) :
    l.getD i default ∈ l := by
  rw [List.getD_eq_getElem l default h]
  exact List.getElem_mem h

/-- What a successful `singleLoop` run returns: a fading-in, zero-opacity,
same-side edge whose key avoids `keys`, whose endpoints come from
`sideNodes`, whose stored squared distance is the endpoints' and is at least
the minimum threshold, and which is long only if `canAddLong` was set. -/
theorem singleLoop_spec (p : Params) (draw : ℕ → ℕ) (sideNodes : List Node)
    (keys : List (ℕ × ℕ)) (side : Side) (canAddLong needsLong : Bool)
    (preferLong : Option Bool) (hlen : 0 < sideNodes.length) :
    ∀ (fuel t attempts : ℕ) (sc : Shortcut),
      singleLoop p draw sideNodes keys side canAddLong needsLong preferLong
          fuel t attempts = some sc →
      sc.side = side ∧ sc.fadingOut = false ∧ sc.fadingIn = true ∧ sc.opacity = 0 ∧
      (sc.isLong = true → canAddLong = true) ∧
      edgeKeyOf sc ∉ keys ∧ ¬ sc.distSq < minDistSq p ∧
      ∃ src ∈ sideNodes, ∃ tgt ∈ sideNodes,
        sc.sourceId = src.id ∧ sc.targetId = tgt.id ∧ sc.distSq = nodeDistSq src tgt := by
  intro fuel
  induction fuel with
  | zero => intro t attempts sc h; simp [singleLoop] at h
  | succ fuel ih =>
    intro t attempts sc h
    simp only [singleLoop] at h
    split at h
    · exact ih _ _ _ h
    · split at h
      · exact ih _ _ _ h
      · next hdist =>
        split at h
        · exact ih _ _ _ h
        · next hcan =>
          split at h
          · exact ih _ _ _ h
          · split at h
            · exact ih _ _ _ h
            · split at h
              · exact ih _ _ _ h
              · split at h
                · exact ih _ _ _ h
                · next hkey =>
                  rcases Option.some.injEq _ _ ▸ h with rfl
                  refine ⟨rfl, rfl, rfl, rfl, ?_, ?_, ?_, ?_⟩
                  · intro hlong
                    simp only [newShortcut] at hlong
                    by_contra hcal
                    have : canAddLong = false := by
                      cases canAddLong
                      · rfl
                      · exact absurd rfl hcal
                    apply hcan
                    rw [hlong, this]
                    rfl
                  · exact hkey
                  · exact hdist
                  · exact ⟨_, getD_mem_of_lt (Nat.mod_lt _ hlen),
                      _, getD_mem_of_lt (Nat.mod_lt _ hlen), rfl, rfl, rfl⟩

/-- What a successful `createSingleShortcut` call returns (lines 567–622):
a fading-in same-side edge with a fresh key, endpoints drawn from the
side's node set, and — when the edge is long — a current long count still
strictly below the per-side maximum. -/
theorem createSingleShortcut_spec (p : Params) (draw : ℕ → ℕ) (t0 : ℕ)
    (nodes : List Node) (shortcuts : List Shortcut) (side : Side)
    (preferLong : Option Bool) (sc : Shortcut)
    (h : createSingleShortcut p draw t0 nodes shortcuts side preferLong = some sc) :
    sc.side = side ∧ sc.fadingOut = false ∧ sc.fadingIn = true ∧ sc.opacity = 0 ∧
    (sc.isLong = true →
      countLongShortcutsForSide shortcuts side < p.maxLongShortcutsPerSide) ∧
    edgeKeyOf sc ∉ shortcuts.map edgeKeyOf ∧
    ∃ src ∈ nodes, ∃ tgt ∈ nodes, src.side = side ∧ tgt.side = side ∧
      sc.sourceId = src.id ∧ sc.targetId = tgt.id := by
  simp only [createSingleShortcut] at h
  split at h
  · exact absurd h (by simp)
  · next hlen2 =>
    have hlen : 0 < (nodes.filter fun n => decide (n.side = side)).length := by
      omega
    obtain ⟨h1, h2, h3, h4, h5, h6, -, src, hsrc, tgt, htgt, h8, h9, -⟩ :=
      singleLoop_spec p draw _ _ side _ _ preferLong hlen _ _ _ sc h
    refine ⟨h1, h2, h3, h4, ?_, h6, ?_⟩
    · intro hlong
      have := h5 hlong
      exact of_decide_eq_true this
    · rw [List.mem_filter] at hsrc htgt
      exact ⟨src, hsrc.1, tgt, htgt.1, of_decide_eq_true hsrc.2,
        of_decide_eq_true htgt.2, h8, h9⟩

/-- What the long-guarantee loop does to the state: it appends some list of
new edges — all long, steady, same-side, endpoint-sourced from `sideNodes`
at distance at least the long threshold — increments `longCreated` once per
new edge without ever passing `max` of its start value and the minimum
floor, and preserves key uniqueness. -/
theorem ensureLongLoop_spec (p : Params) (draw : ℕ → ℕ) (sideNodes : List Node)
    (side : Side) (hlen : 0 < sideNodes.length) :
    ∀ (fuel : ℕ) (st : BuildSt),
      ∃ new : List Shortcut,
        (ensureLongLoop p draw sideNodes side fuel st).shortcuts = st.shortcuts ++ new ∧
        (ensureLongLoop p draw sideNodes side fuel st).longCreated =
          st.longCreated + new.length ∧
        (ensureLongLoop p draw sideNodes side fuel st).longCreated ≤
          max st.longCreated p.minLongShortcutsPerSide ∧
        (∀ e ∈ new, e.side = side ∧ e.isLong = true ∧ e.fadingOut = false ∧
          ¬ e.distSq < longDistSq p ∧
          ∃ src ∈ sideNodes, ∃ tgt ∈ sideNodes,
            e.sourceId = src.id ∧ e.targetId = tgt.id ∧ e.distSq = nodeDistSq src tgt) ∧
        ((st.shortcuts.map edgeKeyOf).Nodup →
          ((ensureLongLoop p draw sideNodes side fuel st).shortcuts.map edgeKeyOf).Nodup) := by
  intro fuel
  induction fuel with
  | zero =>
    intro st
    exact ⟨[], by simp [ensureLongLoop], by simp [ensureLongLoop],
      by simp [ensureLongLoop], by simp, fun hn => by simpa [ensureLongLoop] using hn⟩
  | succ fuel ih =>
    intro st
    simp only [ensureLongLoop]
    split
    · next hstop =>
      exact ⟨[], by simp, by simp, by omega, by simp, fun hn => hn⟩
    · next hgo =>
      split
      · next => exact ih _
      · next hne =>
        split
        · next => exact ih _
        · next hdist =>
          split
          · next => exact ih _
          · next hkey =>
            set src := sideNodes.getD (draw st.t % sideNodes.length) default with hsrcdef
            set tgt := sideNodes.getD (draw (st.t + 1) % sideNodes.length) default with htgtdef
            obtain ⟨new, hsc, hlc, hbound, hall, hnd⟩ := ih
              { shortcuts := st.shortcuts ++ [steadyShortcut src tgt side true (nodeDistSq src tgt)],
                created := st.created + 1, longCreated := st.longCreated + 1,
                t := st.t + 2 }
            refine ⟨steadyShortcut src tgt side true (nodeDistSq src tgt) :: new,
              ?_, ?_, ?_, ?_, ?_⟩
            · rw [hsc]
              simp
            · rw [hlc]
              simp only [List.length_cons]
              omega
            · refine le_trans hbound ?_
              have hgo' : ¬ p.minLongShortcutsPerSide ≤ st.longCreated := hgo
              show max (st.longCreated + 1) p.minLongShortcutsPerSide ≤
                max st.longCreated p.minLongShortcutsPerSide
              omega
            · intro e he
              rcases List.mem_cons.mp he with rfl | he'
              · refine ⟨rfl, rfl, rfl, hdist, ?_⟩
                exact ⟨src, hsrcdef ▸ getD_mem_of_lt (Nat.mod_lt _ hlen),
                  tgt, htgtdef ▸ getD_mem_of_lt (Nat.mod_lt _ hlen), rfl, rfl, rfl⟩
              · exact hall e he'
            · intro hn
              exact hnd (nodupKeys_push _ _ hn hkey)

/-- What the quota-filling loop does to the state: it appends steady
same-side edges with endpoints from `sideNodes` at distance at least the
minimum threshold, increments `longCreated` once per *long* new edge without
ever passing `max` of its start value and the per-side maximum, and
preserves key uniqueness. -/
theorem fillLoop_spec (p : Params) (draw : ℕ → ℕ) (sideNodes : List Node)
    (side : Side) (numShortcuts : ℕ) (hlen : 0 < sideNodes.length) :
    ∀ (fuel : ℕ) (st : BuildSt),
      ∃ new : List Shortcut,
        (fillLoop p draw sideNodes side numShortcuts fuel st).shortcuts =
          st.shortcuts ++ new ∧
        (fillLoop p draw sideNodes side numShortcuts fuel st).longCreated =
          st.longCreated + (new.filter fun s => s.isLong).length ∧
        (fillLoop p draw sideNodes side numShortcuts fuel st).longCreated ≤
          max st.longCreated p.maxLongShortcutsPerSide ∧
        (∀ e ∈ new, e.side = side ∧ e.fadingOut = false ∧
          ¬ e.distSq < minDistSq p ∧
          ∃ src ∈ sideNodes, ∃ tgt ∈ sideNodes,
            e.sourceId = src.id ∧ e.targetId = tgt.id ∧ e.distSq = nodeDistSq src tgt) ∧
        ((st.shortcuts.map edgeKeyOf).Nodup →
          ((fillLoop p draw sideNodes side numShortcuts fuel st).shortcuts.map
            edgeKeyOf).Nodup) := by
  intro fuel
  induction fuel with
  | zero =>
    intro st
    exact ⟨[], by simp [fillLoop], by simp [fillLoop],
      by simp [fillLoop], by simp, fun hn => by simpa [fillLoop] using hn⟩
  | succ fuel ih =>
    intro st
    simp only [fillLoop]
    split
    · next hstop =>
      exact ⟨[], by simp, by simp, by omega, by simp, fun hn => hn⟩
    · next hgo =>
      split
      · next => exact ih _
      · next hne =>
        split
        · next => exact ih _
        · next hdistm =>
          split
          · next => exact ih _
          · next hnotmax =>
            split
            · next => exact ih _
            · next hkey =>
              set src := sideNodes.getD (draw st.t % sideNodes.length) default with hsrcdef
              set tgt := sideNodes.getD (draw (st.t + 1) % sideNodes.length) default
                with htgtdef
              set dd := nodeDistSq src tgt with hdd
              set bl := decide (longDistSq p ≤ dd) with hbl
              obtain ⟨new, hsc, hlc, hbound, hall, hnd⟩ := ih
                { shortcuts := st.shortcuts ++ [steadyShortcut src tgt side bl dd],
                  created := st.created + 1,
                  longCreated := st.longCreated + (if bl then 1 else 0), t := st.t + 2 }
              refine ⟨steadyShortcut src tgt side bl dd :: new, ?_, ?_, ?_, ?_, ?_⟩
              · rw [hsc]
                simp
              · rw [hlc, List.filter_cons]
                show st.longCreated + (if bl then 1 else 0) +
                    (new.filter fun s => s.isLong).length =
                  st.longCreated +
                    (if bl = true then steadyShortcut src tgt side bl dd ::
                        new.filter fun s => s.isLong
                      else new.filter fun s => s.isLong).length
                cases bl <;> simp <;> omega
              · refine le_trans hbound ?_
                show max (st.longCreated + (if bl then 1 else 0)) p.maxLongShortcutsPerSide ≤
                  max st.longCreated p.maxLongShortcutsPerSide
                by_cases hL : longDistSq p ≤ dd
                · have hble : bl = true := by rw [hbl]; exact decide_eq_true hL
                  have hlt : ¬ p.maxLongShortcutsPerSide ≤ st.longCreated := by
                    intro hle2
                    apply hnotmax
                    rw [hble]
                    simp [hle2]
                  rw [hble, if_pos rfl]
                  omega
                · have hble : bl = false := by rw [hbl]; exact decide_eq_false hL
                  rw [hble]
                  simp
              · intro e he
                rcases List.mem_cons.mp he with rfl | he'
                · refine ⟨rfl, rfl, hdistm, ?_⟩
                  exact ⟨src, hsrcdef ▸ getD_mem_of_lt (Nat.mod_lt _ hlen),
                    tgt, htgtdef ▸ getD_mem_of_lt (Nat.mod_lt _ hlen), rfl, rfl, rfl⟩
                · exact hall e he'
              · intro hn
                exact hnd (nodupKeys_push _ _ hn hkey)

/-- What one `createShortcutsForSide` call does: it only appends edges — all
steady, owned by `side`, endpoint-sourced from `sideNodes`, each satisfying
one of the two distance thresholds — it adds at most
`max minLongShortcutsPerSide maxLongShortcutsPerSide` long edges, and it
preserves key uniqueness. -/
theorem createShortcutsForSide_spec (p : Params) (draw : ℕ → ℕ) (t0 : ℕ)
    (sideNodes : List Node) (side : Side) (ss : List Shortcut) :
    ∃ new : List Shortcut,
      createShortcutsForSide p draw t0 sideNodes side ss = ss ++ new ∧
      (∀ e ∈ new, e.side = side ∧ e.fadingOut = false ∧
        (¬ e.distSq < minDistSq p ∨ ¬ e.distSq < longDistSq p) ∧
        ∃ src ∈ sideNodes, ∃ tgt ∈ sideNodes,
          e.sourceId = src.id ∧ e.targetId = tgt.id ∧ e.distSq = nodeDistSq src tgt) ∧
      (new.filter fun s => s.isLong).length ≤
        max p.minLongShortcutsPerSide p.maxLongShortcutsPerSide ∧
      ((ss.map edgeKeyOf).Nodup → ((ss ++ new).map edgeKeyOf).Nodup) := by
  simp only [createShortcutsForSide]
  split
  · next => exact ⟨[], by simp, by simp, by simp, fun hn => by simpa using hn⟩
  · next hlen2 =>
    have hlen : 0 < sideNodes.length := by omega
    obtain ⟨new1, hsc1, hlc1, hb1, hall1, hnd1⟩ :=
      ensureLongLoop_spec p draw sideNodes side hlen 100 ⟨ss, 0, 0, t0⟩
    obtain ⟨new2, hsc2, hlc2, hb2, hall2, hnd2⟩ :=
      fillLoop_spec p draw sideNodes side
        (max 1 ⌊(sideNodes.length : ℚ) * p.shortcutDensity⌋.toNat) hlen
        (max 1 ⌊(sideNodes.length : ℚ) * p.shortcutDensity⌋.toNat * 10)
        (ensureLongLoop p draw sideNodes side 100 ⟨ss, 0, 0, t0⟩)
    dsimp only at hsc1 hlc1 hb1
    refine ⟨new1 ++ new2, ?_, ?_, ?_, ?_⟩
    · rw [hsc2, hsc1, List.append_assoc]
    · intro e he
      rcases List.mem_append.mp he with h1 | h2
      · obtain ⟨hside, hlong, hout, hdist, hsrc⟩ := hall1 e h1
        exact ⟨hside, hout, Or.inr hdist, hsrc⟩
      · obtain ⟨hside, hout, hdist, hsrc⟩ := hall2 e h2
        exact ⟨hside, hout, Or.inl hdist, hsrc⟩
    · have hfilter1 : new1.filter (fun s => s.isLong) = new1 :=
        List.filter_eq_self.mpr fun e he => (hall1 e he).2.1
      rw [List.filter_append, List.length_append, hfilter1]
      omega
    · intro hn
      have h2 := hnd2 (hnd1 hn)
      rw [hsc2, hsc1, List.append_assoc] at h2
      exact h2

/-- C8: shortcut creation absorbs infeasible sides without effect: a side
with fewer than two points returns immediately creating nothing, and a side
with exactly two points whose rest distance is below the minimum shortcut
threshold terminates normally (attempt budgets exhausted) with zero
shortcuts created.  (Totality of the Lean function models the absence of a
thrown exception.) -/
theorem C8_infeasible_side_absorbed (p : Params) (draw : ℕ → ℕ) (t0 : ℕ)
    (sideNodes : List Node) (side : Side) (ss : List Shortcut) (a b : Node)
    (hshort : sideNodes.length < 2)
    (hclose : nodeDistSq a b < minDistSq p)
    (hth : minDistSq p ≤ longDistSq p)
    (hpos : 0 < minDistSq p) :
    createShortcutsForSide p draw t0 sideNodes side ss = ss ∧
    createShortcutsForSide p draw t0 [a, b] side ss = ss := by
  constructor
  · simp only [createShortcutsForSide]
    rw [if_pos hshort]
  · obtain ⟨new, hres, hall, -, -⟩ :=
      createShortcutsForSide_spec p draw t0 [a, b] side ss
    have hnil : new = [] := by
      rcases new with - | ⟨e, rest⟩
      · rfl
      · exfalso
        obtain ⟨-, -, hdist, src, hsrc, tgt, htgt, -, -, hd2⟩ :=
          hall e (List.mem_cons_self e rest)
        have hdists : ∀ u ∈ [a, b], ∀ v ∈ [a, b], nodeDistSq u v < minDistSq p := by
          intro u hu v hv
          have hsymm : nodeDistSq b a = nodeDistSq a b := by
            simp only [nodeDistSq]
            ring
          have hzero : ∀ w : Node, nodeDistSq w w = 0 := by
            intro w
            simp only [nodeDistSq]
            ring
          rcases List.mem_pair.mp hu with rfl | rfl <;>
            rcases List.mem_pair.mp hv with rfl | rfl <;>
            simp [hzero, hsymm, hclose, hpos]
        have hlt := hdists src hsrc tgt htgt
        rw [← hd2] at hlt
        rcases hdist with hmin | hlong
        · exact hmin hlt
        · exact hlong (lt_of_lt_of_le hlt hth)
    rw [hres, hnil, List.append_nil]

/-- Witness for C8: two nodes 60 apart (squared distance 3600 < 32400, the
squared default minimum `(60·3)² `), on a side list that is first too short
and then exactly these two nodes; both calls return the input unchanged. -/
theorem C8_infeasible_side_absorbed_witness :
    createShortcutsForSide defaults (fun _ => 0) 0 [] Side.left [] = [] ∧
    createShortcutsForSide defaults (fun _ => 0) 0 [w8nodeA, w8nodeB] Side.left [] = [] :=
  C8_infeasible_side_absorbed defaults (fun _ => 0) 0 [] Side.left [] w8nodeA w8nodeB
    (by simp) (by norm_num [nodeDistSq, minDistSq, w8nodeA, w8nodeB, defaults])
    (by norm_num [minDistSq, longDistSq, defaults])
    (by norm_num [minDistSq, defaults])

/-- The per-edge fade step never changes an edge's endpoint key. -/
theorem fadeOne_key (step : ℚ) (s s' : Shortcut) (h : fadeOne step s = some s') :
    edgeKeyOf s' = edgeKeyOf s := by
  simp only [fadeOne] at h
  split at h
  · split at h
    · exact absurd h (by simp)
    · simp only [Option.some.injEq] at h
      subst h
      rfl
  · split at h
    · split at h
      · simp only [Option.some.injEq] at h
        subst h
        rfl
      · simp only [Option.some.injEq] at h
        subst h
        rfl
    · simp only [Option.some.injEq] at h
      subst h
      rfl

/-- A fade pass keeps a sub-sequence of the original key list. -/
theorem updateShortcutFades_keys_sublist (d : ℚ) (ss : List Shortcut) :
    ((updateShortcutFades d ss).map edgeKeyOf).Sublist (ss.map edgeKeyOf) := by
  induction ss with
  | nil => simp [updateShortcutFades]
  | cons s ss ih =>
    simp only [updateShortcutFades, List.filterMap_cons] at ih ⊢
    cases hf : fadeOne (1 / d) s
    · simp only [List.map_cons]
      exact ih.cons (edgeKeyOf s)
    · next s' =>
      simp only [List.map_cons]
      rw [fadeOne_key (1 / d) s s' hf]
      exact ih.cons₂ (edgeKeyOf s)

/-- The mark-and-replace fold of `checkAndSwapShortcuts` preserves key
uniqueness: marking never changes keys and every pushed replacement checked
its key against the current array. -/
theorem swapFold_nodup (p : Params) (draw : ℕ → ℕ) (nodes : List Node) :
    ∀ (l : List Shortcut) (st : List Shortcut × ℕ),
      (st.1.map edgeKeyOf).Nodup →
      ((l.foldl (swapStep p draw nodes) st).1.map edgeKeyOf).Nodup := by
  intro l
  induction l with
  | nil => intro st h; exact h
  | cons r l ih =>
    intro st h
    rw [List.foldl_cons]
    apply ih
    simp only [swapStep]
    rcases hcs : createSingleShortcut p draw st.2 nodes
        (markFadingOutByKey (edgeKeyOf r) st.1) r.side (some r.isLong) with - | sc
    · show ((markFadingOutByKey (edgeKeyOf r) st.1).map edgeKeyOf).Nodup
      rw [markFadingOutByKey_keys]
      exact h
    · show (((markFadingOutByKey (edgeKeyOf r) st.1) ++ [sc]).map edgeKeyOf).Nodup
      apply nodupKeys_push
      · rw [markFadingOutByKey_keys]
        exact h
      · exact (createSingleShortcut_spec p draw st.2 nodes _ r.side (some r.isLong)
          sc hcs).2.2.2.2.2.1

/-- C4: no two live shortcuts ever share an unordered endpoint-index pair:
initial population produces pairwise-distinct edge keys, and every
subsequent operation — inserting a `createSingleShortcut` result, a
`checkAndSwapShortcuts` cycle (including edges currently fading in or out;
marking an edge `fadingOut` keeps its key and every pushed replacement
checked its key against the whole current array), and a fade pass —
preserves pairwise distinctness. -/
theorem C4_edge_key_uniqueness (p : Params) :
    (∀ (draw : ℕ → ℕ) (nodes : List Node),
      ((buildInitialShortcuts p draw nodes).map edgeKeyOf).Nodup) ∧
    (∀ (draw : ℕ → ℕ) (t0 : ℕ) (nodes : List Node) (ss : List Shortcut)
        (side : Side) (pref : Option Bool) (sc : Shortcut),
      (ss.map edgeKeyOf).Nodup →
      createSingleShortcut p draw t0 nodes ss side pref = some sc →
      ((ss ++ [sc]).map edgeKeyOf).Nodup) ∧
    (∀ (draw : ℕ → ℕ) (t0 : ℕ) (shuffle : List Shortcut → List Shortcut) (k : ℕ)
        (nodes : List Node) (ss : List Shortcut),
      (ss.map edgeKeyOf).Nodup →
      ((checkAndSwapShortcuts p draw t0 shuffle k nodes ss).map edgeKeyOf).Nodup) ∧
    (∀ (d : ℚ) (ss : List Shortcut),
      (ss.map edgeKeyOf).Nodup →
      ((updateShortcutFades d ss).map edgeKeyOf).Nodup) := by
  refine ⟨?_, ?_, ?_, ?_⟩
  · intro draw nodes
    simp only [buildInitialShortcuts]
    obtain ⟨new1, hres1, -, -, hnd1⟩ := createShortcutsForSide_spec p draw 0
      (nodes.filter fun n => decide (n.side = Side.left)) Side.left []
    obtain ⟨new2, hres2, -, -, hnd2⟩ := createShortcutsForSide_spec p draw 1000000
      (nodes.filter fun n => decide (n.side = Side.right)) Side.right
      (createShortcutsForSide p draw 0
        (nodes.filter fun n => decide (n.side = Side.left)) Side.left [])
    rw [hres2]
    apply hnd2
    rw [hres1]
    apply hnd1
    simp
  · intro draw t0 nodes ss side pref sc hn hcs
    exact nodupKeys_push ss sc hn
      (createSingleShortcut_spec p draw t0 nodes ss side pref sc hcs).2.2.2.2.2.1
  · intro draw t0 shuffle k nodes ss h
    simp only [checkAndSwapShortcuts]
    split
    · exact h
    · split
      · exact h
      · split
        · exact h
        · exact swapFold_nodup p draw nodes _ _ h
  · intro d ss h
    exact (updateShortcutFades_keys_sublist d ss).nodup h

/-- The concrete successful creation used by witnesses: with index oracle
`draw t = t` the first attempt samples the pair `(0, 1)` and accepts it. -/
theorem farShortcut_created :
    createSingleShortcut defaults (fun t => t) 0 [farNodeA, farNodeB] [] Side.left none =
      some farShortcut := by
  norm_num [createSingleShortcut, singleLoop, countLongShortcutsForSide, minDistSq,
    longDistSq, nodeDistSq, defaults, farNodeA, farNodeB, farShortcut, newShortcut,
    getEdgeKey, edgeKeyOf]

/-- Witness for C4 at concrete inputs: the empty lattice's initial
population, the insertion of the concrete replacement above into an empty
array, a swap cycle with zero swaps, and a fade pass. -/
theorem C4_edge_key_uniqueness_witness :
    ((buildInitialShortcuts defaults (fun _ => 0) []).map edgeKeyOf).Nodup ∧
    (([] ++ [farShortcut]).map edgeKeyOf).Nodup ∧
    ((checkAndSwapShortcuts defaults (fun _ => 0) 0 id 0 [] []).map edgeKeyOf).Nodup ∧
    ((updateShortcutFades 45 []).map edgeKeyOf).Nodup := by
  obtain ⟨h1, h2, h3, h4⟩ := C4_edge_key_uniqueness defaults
  exact ⟨h1 (fun _ => 0) [],
    h2 (fun t => t) 0 [farNodeA, farNodeB] [] Side.left none farShortcut (by simp)
      farShortcut_created,
    h3 (fun _ => 0) 0 id 0 [] [] (by simp),
    h4 45 [] (by simp)⟩

/-- In an id-indexed node array, indexing by a member's id returns that
member. -/
theorem nodes_getD_id (nodes : List Node)
    (hid : ∀ (i : ℕ) (hi : i < nodes.length), (nodes.get ⟨i, hi⟩).id = i)
    (n : Node) (hn : n ∈ nodes) : nodes.getD n.id default = n := by
  obtain ⟨j, hj⟩ := List.mem_iff_get.mp hn
  have hjid : n.id = j.1 := by rw [← hj, hid j.1 j.2]
  rw [hjid, List.getD_eq_getElem _ _ j.2, ← hj]
  simp [List.get_eq_getElem]

/-- C10: after lattice generation every node's id equals its array position
(`nodeId++` runs in push order from a fresh array), and consequently, for
any id-indexed node array, the endpoints stored by shortcut creation
(`sourceId`/`targetId`) look up via `nodes[...]` to exactly the two endpoint
nodes that were sampled — both for single replacements and for initial
population (which can only add such edges to the array it was given). -/
theorem C10_node_ids_index_array :
    (∀ (w h : ℚ) (rand : ℕ → ℚ) (i : ℕ) (hi : i < (buildNodes w h rand).length),
      ((buildNodes w h rand).get ⟨i, hi⟩).id = i) ∧
    (∀ (p : Params) (draw : ℕ → ℕ) (t0 : ℕ) (nodes : List Node)
        (ss : List Shortcut) (side : Side) (pref : Option Bool) (sc : Shortcut),
      (∀ (i : ℕ) (hi : i < nodes.length), (nodes.get ⟨i, hi⟩).id = i) →
      createSingleShortcut p draw t0 nodes ss side pref = some sc →
      ∃ src ∈ nodes, ∃ tgt ∈ nodes,
        sc.sourceId = src.id ∧ sc.targetId = tgt.id ∧
        nodes.getD sc.sourceId default = src ∧ nodes.getD sc.targetId default = tgt) ∧
    (∀ (p : Params) (draw : ℕ → ℕ) (t0 : ℕ) (nodes sideNodes : List Node)
        (side : Side) (ss : List Shortcut) (e : Shortcut),
      (∀ (i : ℕ) (hi : i < nodes.length), (nodes.get ⟨i, hi⟩).id = i) →
      (∀ n ∈ sideNodes, n ∈ nodes) →
      e ∈ createShortcutsForSide p draw t0 sideNodes side ss →
      e ∈ ss ∨ ∃ src ∈ nodes, ∃ tgt ∈ nodes,
        e.sourceId = src.id ∧ e.targetId = tgt.id ∧
        nodes.getD e.sourceId default = src ∧ nodes.getD e.targetId default = tgt) := by
  refine ⟨?_, ?_, ?_⟩
  · intro w h rand i hi
    simp only [buildNodes] at hi ⊢
    rw [List.get_eq_getElem]
    simp only [List.getElem_map, List.getElem_range]
    rfl
  · intro p draw t0 nodes ss side pref sc hid hcs
    obtain ⟨-, -, -, -, -, -, src, hsrc, tgt, htgt, -, -, hsid, htid⟩ :=
      createSingleShortcut_spec p draw t0 nodes ss side pref sc hcs
    refine ⟨src, hsrc, tgt, htgt, hsid, htid, ?_, ?_⟩
    · rw [hsid]
      exact nodes_getD_id nodes hid src hsrc
    · rw [htid]
      exact nodes_getD_id nodes hid tgt htgt
  · intro p draw t0 nodes sideNodes side ss e hid hsub hmem
    obtain ⟨new, hres, hall, -, -⟩ :=
      createShortcutsForSide_spec p draw t0 sideNodes side ss
    rw [hres] at hmem
    rcases List.mem_append.mp hmem with hss | hnew
    · exact Or.inl hss
    · obtain ⟨-, -, -, src, hsrc, tgt, htgt, hsid, htid, -⟩ := hall e hnew
      refine Or.inr ⟨src, hsub src hsrc, tgt, hsub tgt htgt, hsid, htid, ?_, ?_⟩
      · rw [hsid]
        exact nodes_getD_id nodes hid src (hsub src hsrc)
      · rw [htid]
        exact nodes_getD_id nodes hid tgt (hsub tgt htgt)

/-- Witness for C10: position 0 of a generated lattice carries id 0; the
concrete replacement `farShortcut` on the two-node array resolves both
endpoints by indexing; and an infeasible initial-population call leaves the
given array's edge where it was. -/
theorem C10_node_ids_index_array_witness :
    ((buildNodes 1200 800 w7rand).get
      ⟨0, List.length_pos_of_mem w7node_mem⟩).id = 0 ∧
    (∃ src ∈ [farNodeA, farNodeB], ∃ tgt ∈ [farNodeA, farNodeB],
      farShortcut.sourceId = src.id ∧ farShortcut.targetId = tgt.id ∧
      ([farNodeA, farNodeB]).getD farShortcut.sourceId default = src ∧
      ([farNodeA, farNodeB]).getD farShortcut.targetId default = tgt) ∧
    (farShortcut ∈ [farShortcut] ∨
      ∃ src ∈ [farNodeA, farNodeB], ∃ tgt ∈ [farNodeA, farNodeB],
        farShortcut.sourceId = src.id ∧ farShortcut.targetId = tgt.id ∧
        ([farNodeA, farNodeB]).getD farShortcut.sourceId default = src ∧
        ([farNodeA, farNodeB]).getD farShortcut.targetId default = tgt) := by
  obtain ⟨h1, h2, h3⟩ := C10_node_ids_index_array
  have hid : ∀ (i : ℕ) (hi : i < ([farNodeA, farNodeB]).length),
      (([farNodeA, farNodeB]).get ⟨i, hi⟩).id = i := by
    intro i hi
    match i, hi with
    | 0, _ => rfl
    | 1, _ => rfl
  exact ⟨h1 1200 800 w7rand 0 _,
    h2 defaults (fun t => t) 0 [farNodeA, farNodeB] [] Side.left none farShortcut hid
      farShortcut_created,
    h3 defaults (fun _ => 0) 0 [farNodeA, farNodeB] [] Side.left [farShortcut]
      farShortcut hid (by simp)
      (by simp [createShortcutsForSide])⟩

/-- C9 (implicit): an edge still fading in passes `checkAndSwapShortcuts`'s
candidate filter (which excludes only `fadingOut` edges); marking it leaves
both flags set; the fade update then applies only the fading-out branch, so
its opacity steps strictly downward from its partial value — never reaching
1 — until the edge is removed. -/
theorem C9_fading_in_edge_swap_out (step : ℚ) (s : Shortcut) (ss : List Shortcut)
    (k : ℕ × ℕ) :
    (s ∈ ss → s.fadingOut = false → s ∈ activeShortcuts ss) ∧
    (s ∈ ss → edgeKeyOf s = k →
      { s with fadingOut := true } ∈ markFadingOutByKey k ss) ∧
    ({ s with fadingOut := true }).fadingIn = s.fadingIn ∧
    (s.fadingOut = true →
      fadeOne step s = if s.opacity - step ≤ 0 then none
        else some { s with opacity := s.opacity - step }) ∧
    (0 < step → s.fadingOut = true → s.opacity < 1 →
      (∀ (n : ℕ) (s' : Shortcut), fadeIter step s n = some s' →
        s'.opacity = s.opacity - n * step ∧ s'.opacity < 1 ∧ s'.fadingOut = true) ∧
      ∃ N : ℕ, fadeIter step s N = none) := by
  refine ⟨?_, ?_, rfl, fadeOne_fadingOut step s, ?_⟩
  · intro hmem hout
    exact List.mem_filter.mpr ⟨hmem, by simp [hout]⟩
  · intro hmem hk
    refine List.mem_map.mpr ⟨s, hmem, ?_⟩
    rw [if_pos hk]
  · intro hstep hout hop
    have hiter : ∀ (n : ℕ) (s' : Shortcut), fadeIter step s n = some s' →
        s'.opacity = s.opacity - n * step ∧ s'.opacity < 1 ∧ s'.fadingOut = true ∧
        (n ≠ 0 → 0 < s'.opacity) := by
      intro n
      induction n with
      | zero =>
        intro s' h
        simp only [fadeIter, Option.some.injEq] at h
        subst h
        exact ⟨by push_cast; ring, hop, hout, fun hne => absurd rfl hne⟩
      | succ n ih =>
        intro s' h
        rw [fadeIter] at h
        rcases Option.bind_eq_some.mp h with ⟨s'', hs'', hf⟩
        obtain ⟨hop'', hlt'', hout'', -⟩ := ih s'' hs''
        rw [fadeOne_fadingOut step s'' hout''] at hf
        split at hf
        · exact absurd hf (by simp)
        · next hpos =>
          simp only [Option.some.injEq] at hf
          subst hf
          refine ⟨?_, ?_, hout'', fun _ => by simpa using lt_of_not_le (by simpa using hpos)⟩
          · show s''.opacity - step = s.opacity - (n + 1 : ℕ) * step
            rw [hop'']
            push_cast
            ring
          · show s''.opacity - step < 1
            linarith
    refine ⟨fun n s' h => ⟨(hiter n s' h).1, (hiter n s' h).2.1, (hiter n s' h).2.2.1⟩, ?_⟩
    obtain ⟨N, hN⟩ := exists_nat_ge (1 / step)
    refine ⟨N + 1, ?_⟩
    rcases hit : fadeIter step s (N + 1) with - | s'
    · rfl
    · exfalso
      obtain ⟨hop', hlt', -, hpos'⟩ := hiter (N + 1) s' hit
      have h1 : 1 ≤ (N : ℚ) * step := by
        rw [div_le_iff₀ hstep] at hN
        linarith
      have hbig : 1 < ((N + 1 : ℕ) : ℚ) * step := by
        push_cast
        nlinarith
      have := hpos' (by omega)
      rw [hop'] at this
      linarith

/-- Witness for C9 on a concrete half-faded-in edge (`opacity 1/2`) with
fade step `1/45`. -/
theorem C9_fading_in_edge_swap_out_witness :
    w9edge ∈ activeShortcuts [w9edge] ∧
    { w9edge with fadingOut := true } ∈ markFadingOutByKey (0, 1) [w9edge] ∧
    (∀ (n : ℕ) (s' : Shortcut), fadeIter (1/45) w9edgeOut n = some s' →
      s'.opacity = w9edgeOut.opacity - n * (1/45) ∧ s'.opacity < 1 ∧
      s'.fadingOut = true) ∧
    ∃ N : ℕ, fadeIter (1/45) w9edgeOut N = none := by
  obtain ⟨h1, h2, -, -, -⟩ := C9_fading_in_edge_swap_out (1/45) w9edge [w9edge] (0, 1)
  obtain ⟨-, -, -, -, h5⟩ := C9_fading_in_edge_swap_out (1/45) w9edgeOut [] (0, 1)
  obtain ⟨h5a, h5b⟩ := h5 (by norm_num) rfl (by norm_num [w9edgeOut, w9edge])
  exact ⟨h1 (List.mem_singleton_self w9edge) rfl,
    h2 (List.mem_singleton_self w9edge) (by norm_num [edgeKeyOf, getEdgeKey, w9edge]),
    h5a, h5b⟩

/-! ### Long-count arithmetic for claim C1 -/

theorem countLong_nil (side : Side) : countLongShortcutsForSide [] side = 0 := rfl

theorem countLong_append (ss₁ ss₂ : List Shortcut) (side : Side) :
    countLongShortcutsForSide (ss₁ ++ ss₂) side =
      countLongShortcutsForSide ss₁ side + countLongShortcutsForSide ss₂ side := by
  simp [countLongShortcutsForSide, List.filter_append]

theorem countLong_cons (s : Shortcut) (ss : List Shortcut) (side : Side) :
    countLongShortcutsForSide (s :: ss) side =
      (if (decide (s.side = side) && !s.fadingOut && s.isLong) = true then 1 else 0) +
        countLongShortcutsForSide ss side := by
  simp only [countLongShortcutsForSide, List.filter_cons]
  split
  · simp [Nat.add_comm]
  · simp

/-- A fade pass never changes any side's active long count: fading-out edges
are not counted before or after (and removal only deletes such edges), while
the fading-in and steady branches preserve `side`, `isLong` and
non-`fadingOut` status. -/
theorem countLong_updateShortcutFades (d : ℚ) (ss : List Shortcut) (side : Side) :
    countLongShortcutsForSide (updateShortcutFades d ss) side =
      countLongShortcutsForSide ss side := by
  induction ss with
  | nil => rfl
  | cons s ss ih =>
    simp only [updateShortcutFades, List.filterMap_cons] at ih ⊢
    cases hOut : s.fadingOut
    · cases hIn : s.fadingIn
      · rw [fadeOne_steady _ _ hOut hIn]
        show countLongShortcutsForSide
            (s :: List.filterMap (fadeOne (1 / d)) ss) side = _
        rw [countLong_cons, countLong_cons, ih]
      · by_cases hge : 1 ≤ s.opacity + 1 / d
        · rw [fadeOne_fadingIn _ _ hOut hIn, if_pos hge]
          show countLongShortcutsForSide
              ({ s with opacity := 1, fadingIn := false } ::
                List.filterMap (fadeOne (1 / d)) ss) side = _
          rw [countLong_cons, countLong_cons, ih]
        · rw [fadeOne_fadingIn _ _ hOut hIn, if_neg hge]
          show countLongShortcutsForSide
              ({ s with opacity := s.opacity + 1 / d } ::
                List.filterMap (fadeOne (1 / d)) ss) side = _
          rw [countLong_cons, countLong_cons, ih]
    · by_cases hle : s.opacity - 1 / d ≤ 0
      · rw [fadeOne_fadingOut _ _ hOut, if_pos hle]
        show countLongShortcutsForSide (List.filterMap (fadeOne (1 / d)) ss) side = _
        rw [ih, countLong_cons]
        simp [hOut]
      · rw [fadeOne_fadingOut _ _ hOut, if_neg hle]
        show countLongShortcutsForSide
            ({ s with opacity := s.opacity - 1 / d } ::
              List.filterMap (fadeOne (1 / d)) ss) side = _
        rw [countLong_cons, countLong_cons, ih]

/-- Marking any key as fading out can only lower a side's long count. -/
theorem countLong_mark_le (k : ℕ × ℕ) (ss : List Shortcut) (side : Side) :
    countLongShortcutsForSide (markFadingOutByKey k ss) side ≤
      countLongShortcutsForSide ss side := by
  induction ss with
  | nil => exact le_refl _
  | cons s ss ih =>
    simp only [markFadingOutByKey, List.map_cons] at ih ⊢
    rw [countLong_cons, countLong_cons]
    split
    · simp only [Bool.not_true, Bool.and_false, Bool.false_and, Bool.false_eq_true, if_false]
      omega
    · omega

/-- The replacement step of the rewiring loop keeps every side's long count
at or below the per-side maximum: marking only lowers counts, and a long
replacement is only returned when the current count is strictly below the
maximum. -/
theorem swapStep_countLong_le (p : Params) (draw : ℕ → ℕ) (nodes : List Node)
    (side : Side) (st : List Shortcut × ℕ) (r : Shortcut)
    (h : countLongShortcutsForSide st.1 side ≤ p.maxLongShortcutsPerSide) :
    countLongShortcutsForSide (swapStep p draw nodes st r).1 side ≤
      p.maxLongShortcutsPerSide := by
  have hmark := countLong_mark_le (edgeKeyOf r) st.1 side
  simp only [swapStep]
  rcases hcs : createSingleShortcut p draw st.2 nodes
      (markFadingOutByKey (edgeKeyOf r) st.1) r.side (some r.isLong) with - | sc
  · exact le_trans hmark h
  · show countLongShortcutsForSide
      (markFadingOutByKey (edgeKeyOf r) st.1 ++ [sc]) side ≤ p.maxLongShortcutsPerSide
    obtain ⟨hside, hout, -, -, hlongmax, -, -⟩ :=
      createSingleShortcut_spec p draw st.2 nodes _ r.side (some r.isLong) sc hcs
    rw [countLong_append, countLong_cons, countLong_nil]
    by_cases hcnt : (decide (sc.side = side) && !sc.fadingOut && sc.isLong) = true
    · have hcnt' := hcnt
      simp only [Bool.and_eq_true, decide_eq_true_eq] at hcnt'
      obtain ⟨⟨hsides, -⟩, hlong⟩ := hcnt'
      have hlt := hlongmax hlong
      rw [hside] at hsides
      rw [hsides] at hlt
      rw [if_pos hcnt]
      omega
    · rw [if_neg hcnt]
      omega

theorem swapFold_countLong_le (p : Params) (draw : ℕ → ℕ) (nodes : List Node)
    (side : Side) :
    ∀ (l : List Shortcut) (st : List Shortcut × ℕ),
      countLongShortcutsForSide st.1 side ≤ p.maxLongShortcutsPerSide →
      countLongShortcutsForSide ((l.foldl (swapStep p draw nodes) st)).1 side ≤
        p.maxLongShortcutsPerSide := by
  intro l
  induction l with
  | nil => intro st h; exact h
  | cons r l ih =>
    intro st h
    rw [List.foldl_cons]
    exact ih _ (swapStep_countLong_le p draw nodes side st r h)

/-- A block of new edges that all belong to `side` and are not fading out
contributes its number of long edges to that side's count. -/
theorem countLong_new_eq (new : List Shortcut) (side : Side)
    (h : ∀ e ∈ new, e.side = side ∧ e.fadingOut = false) :
    countLongShortcutsForSide new side = (new.filter fun s => s.isLong).length := by
  induction new with
  | nil => rfl
  | cons e rest ih =>
    obtain ⟨hside, hout⟩ := h e (List.mem_cons_self e rest)
    rw [countLong_cons, List.filter_cons,
      ih fun e' he' => h e' (List.mem_cons_of_mem e he')]
    cases hl : e.isLong
    · simp [hside, hout, hl]
    · simp [hside, hout, hl, Nat.add_comm]

/-- A block of new edges owned by a different side contributes nothing. -/
theorem countLong_new_other (new : List Shortcut) (side side' : Side)
    (hne : side' ≠ side) (h : ∀ e ∈ new, e.side = side) :
    countLongShortcutsForSide new side' = 0 := by
  induction new with
  | nil => rfl
  | cons e rest ih =>
    have hside := h e (List.mem_cons_self e rest)
    rw [countLong_cons, ih fun e' he' => h e' (List.mem_cons_of_mem e he')]
    have : ¬ e.side = side' := by rw [hside]; exact fun hc => hne hc.symm
    simp [this]

/-- An edge whose key differs from every selected key survives the
mark-and-replace fold untouched. -/
theorem swapFold_preserves (p : Params) (draw : ℕ → ℕ) (nodes : List Node)
    (s₀ : Shortcut) :
    ∀ (l : List Shortcut) (st : List Shortcut × ℕ),
      (∀ r ∈ l, edgeKeyOf r ≠ edgeKeyOf s₀) →
      s₀ ∈ st.1 →
      s₀ ∈ (l.foldl (swapStep p draw nodes) st).1 := by
  intro l
  induction l with
  | nil => intro st _ hmem; exact hmem
  | cons r l ih =>
    intro st hkeys hmem
    rw [List.foldl_cons]
    apply ih _ fun r' hr' => hkeys r' (List.mem_cons_of_mem r hr')
    have hrk : edgeKeyOf r ≠ edgeKeyOf s₀ := hkeys r (List.mem_cons_self r l)
    have hmark : s₀ ∈ markFadingOutByKey (edgeKeyOf r) st.1 := by
      refine List.mem_map.mpr ⟨s₀, hmem, ?_⟩
      rw [if_neg fun hc => hrk hc.symm]
    simp only [swapStep]
    rcases createSingleShortcut p draw st.2 nodes
        (markFadingOutByKey (edgeKeyOf r) st.1) r.side (some r.isLong) with - | sc
    · exact hmark
    · exact List.mem_append_left _ hmark

/-- Membership in `selectSwappable`: the element comes from the given pool,
and when the pool is at the long floor with a medium available, it is
medium. -/
theorem selectSwappable_mem (p : Params) (sub : List Shortcut) (r : Shortcut)
    (h : r ∈ selectSwappable p sub) :
    r ∈ sub ∧
    ((sub.filter fun s => s.isLong).length ≤ p.minLongShortcutsPerSide →
      0 < (sub.filter fun s => !s.isLong).length → r.isLong = false) := by
  simp only [selectSwappable] at h
  split at h
  · refine ⟨List.mem_of_mem_filter h, ?_⟩
    intro _ _
    have := List.of_mem_filter h
    simpa using this
  · next hc =>
    refine ⟨h, ?_⟩
    intro h1 h2
    exact absurd ⟨h1, h2⟩ hc

/-- The long members of a side's active pool are counted exactly by
`countLongShortcutsForSide`. -/
theorem length_filter_isLong_sideActive (ss : List Shortcut) (side : Side) :
    (((activeShortcuts ss).filter fun s => decide (s.side = side)).filter
      fun s => s.isLong).length = countLongShortcutsForSide ss side := by
  simp only [activeShortcuts, countLongShortcutsForSide, List.filter_filter]
  congr 1
  apply List.filter_congr
  intro x _
  cases ho : x.fadingOut <;> cases hl : x.isLong <;> cases hsd : decide (x.side = side) <;>
    simp [ho, hl, hsd]

/-- Counting a side's active long edges never exceeds counting all long
edges. -/
theorem countLong_le_filter_long (new : List Shortcut) (side : Side) :
    countLongShortcutsForSide new side ≤ (new.filter fun s => s.isLong).length := by
  induction new with
  | nil => exact le_refl _
  | cons e rest ih =>
    rw [countLong_cons, List.filter_cons]
    cases hl : e.isLong
    · simp only [Bool.and_false, Bool.false_eq_true, if_false]
      omega
    · have hle1 : (if (decide (e.side = side) && !e.fadingOut && true) = true
          then 1 else 0) ≤ 1 := by
        split
        · exact le_refl 1
        · omega
      rw [if_pos rfl]
      simp only [List.length_cons]
      omega

/-- C1 amended: what actually holds of the per-side long-shortcut bounds.
(i) A fade pass preserves every side's non-fading-out long count exactly.
(ii) `checkAndSwapShortcuts` preserves the upper bound
`count ≤ maxLongShortcutsPerSide`.  (iii) Initial population establishes
the upper bound (given `minLong ≤ maxLong`).  (iv) The swap never marks a
long edge fadingOut while its side's count is at or below the `minLong`
floor *provided the side still has a non-fading-out medium edge*: that edge
survives the call unmarked.  The lower bound `minLong ≤ count`, and the
unconditional form of (iv), are refuted by `C1_counterexample`: with no
medium available, `selectSwappable` falls back to offering the protected
long edges. -/
theorem C1_long_bounds_amended (p : Params) :
    (∀ (d : ℚ) (ss : List Shortcut) (side : Side),
      countLongShortcutsForSide (updateShortcutFades d ss) side =
        countLongShortcutsForSide ss side) ∧
    (∀ (draw : ℕ → ℕ) (t0 : ℕ) (shuffle : List Shortcut → List Shortcut) (k : ℕ)
        (nodes : List Node) (ss : List Shortcut) (side : Side),
      countLongShortcutsForSide ss side ≤ p.maxLongShortcutsPerSide →
      countLongShortcutsForSide (checkAndSwapShortcuts p draw t0 shuffle k nodes ss)
        side ≤ p.maxLongShortcutsPerSide) ∧
    (∀ (draw : ℕ → ℕ) (nodes : List Node) (side : Side),
      p.minLongShortcutsPerSide ≤ p.maxLongShortcutsPerSide →
      countLongShortcutsForSide (buildInitialShortcuts p draw nodes) side ≤
        p.maxLongShortcutsPerSide) ∧
    (∀ (draw : ℕ → ℕ) (t0 : ℕ) (shuffle : List Shortcut → List Shortcut) (k : ℕ)
        (nodes : List Node) (ss : List Shortcut) (side : Side) (s : Shortcut),
      (∀ (l : List Shortcut) (x : Shortcut), x ∈ shuffle l → x ∈ l) →
      (ss.map edgeKeyOf).Nodup →
      countLongShortcutsForSide ss side ≤ p.minLongShortcutsPerSide →
      (∃ m ∈ ss, m.side = side ∧ m.fadingOut = false ∧ m.isLong = false) →
      s ∈ ss → s.side = side → s.isLong = true → s.fadingOut = false →
      s ∈ checkAndSwapShortcuts p draw t0 shuffle k nodes ss) := by
  refine ⟨countLong_updateShortcutFades, ?_, ?_, ?_⟩
  · intro draw t0 shuffle k nodes ss side h
    simp only [checkAndSwapShortcuts]
    split
    · exact h
    · split
      · exact h
      · split
        · exact h
        · exact swapFold_countLong_le p draw nodes side _ _ h
  · intro draw nodes side hminmax
    simp only [buildInitialShortcuts]
    obtain ⟨new1, hres1, hall1, hlong1, -⟩ := createShortcutsForSide_spec p draw 0
      (nodes.filter fun n => decide (n.side = Side.left)) Side.left []
    obtain ⟨new2, hres2, hall2, hlong2, -⟩ := createShortcutsForSide_spec p draw 1000000
      (nodes.filter fun n => decide (n.side = Side.right)) Side.right
      (createShortcutsForSide p draw 0
        (nodes.filter fun n => decide (n.side = Side.left)) Side.left [])
    rw [hres2, hres1, List.nil_append, countLong_append]
    have hb1 : countLongShortcutsForSide new1 side ≤
        (new1.filter fun s => s.isLong).length := countLong_le_filter_long new1 side
    have hb2 : countLongShortcutsForSide new2 side ≤
        (new2.filter fun s => s.isLong).length := countLong_le_filter_long new2 side
    cases side with
    | left =>
      have h2 : countLongShortcutsForSide new2 Side.left = 0 :=
        countLong_new_other new2 Side.right Side.left (by simp)
          fun e he => (hall2 e he).1
      omega
    | right =>
      have h1 : countLongShortcutsForSide new1 Side.right = 0 :=
        countLong_new_other new1 Side.left Side.right (by simp)
          fun e he => (hall1 e he).1
      omega
    | content =>
      have h1 : countLongShortcutsForSide new1 Side.content = 0 :=
        countLong_new_other new1 Side.left Side.content (by simp)
          fun e he => (hall1 e he).1
      have h2 : countLongShortcutsForSide new2 Side.content = 0 :=
        countLong_new_other new2 Side.right Side.content (by simp)
          fun e he => (hall2 e he).1
      omega
  · intro draw t0 shuffle k nodes ss side s hsh hnd hfloor hmed hsmem hsside hslong hsout
    simp only [checkAndSwapShortcuts]
    split
    · exact hsmem
    · split
      · exact hsmem
      · split
        · exact hsmem
        · apply swapFold_preserves p draw nodes s _ (ss, t0) ?_ hsmem
          intro r hr hkeq
          have hr2 := hsh _ _ (List.mem_of_mem_take hr)
          have hinj := List.inj_on_of_nodup_map hnd
          rcases List.mem_append.mp hr2 with hrl | hrr
          · obtain ⟨hrmem, hrmedium⟩ := selectSwappable_mem p _ r hrl
            have hrside : r.side = Side.left := by
              have hrb := (List.mem_filter.mp hrmem).2
              simpa using hrb
            have hract : r ∈ activeShortcuts ss := List.mem_of_mem_filter hrmem
            have hrss : r ∈ ss := List.mem_of_mem_filter hract
            have hrs : r = s := hinj hrss hsmem hkeq
            have hsidel : side = Side.left := by
              rw [← hsside, ← hrs]
              exact hrside
            have hlo : (((activeShortcuts ss).filter
                  fun x => decide (x.side = Side.left)).filter
                  fun x => x.isLong).length ≤ p.minLongShortcutsPerSide := by
              rw [length_filter_isLong_sideActive, ← hsidel]
              exact hfloor
            have hmedpos : 0 < (((activeShortcuts ss).filter
                  fun x => decide (x.side = Side.left)).filter
                  fun x => !x.isLong).length := by
              obtain ⟨m, hm, hms, hmo, hml⟩ := hmed
              have hma : m ∈ activeShortcuts ss :=
                List.mem_filter.mpr ⟨hm, by simp [hmo]⟩
              have hmleft : m ∈ (activeShortcuts ss).filter
                  fun x => decide (x.side = Side.left) :=
                List.mem_filter.mpr ⟨hma, by simp [hms, ← hsidel]⟩
              exact List.length_pos_of_mem
                (List.mem_filter.mpr ⟨hmleft, by simp [hml]⟩)
            have hrmed := hrmedium hlo hmedpos
            rw [hrs, hslong] at hrmed
            exact absurd hrmed (by simp)
          · obtain ⟨hrmem, hrmedium⟩ := selectSwappable_mem p _ r hrr
            have hrside : r.side = Side.right := by
              have hrb := (List.mem_filter.mp hrmem).2
              simpa using hrb
            have hract : r ∈ activeShortcuts ss := List.mem_of_mem_filter hrmem
            have hrss : r ∈ ss := List.mem_of_mem_filter hract
            have hrs : r = s := hinj hrss hsmem hkeq
            have hsider : side = Side.right := by
              rw [← hsside, ← hrs]
              exact hrside
            have hlo : (((activeShortcuts ss).filter
                  fun x => decide (x.side = Side.right)).filter
                  fun x => x.isLong).length ≤ p.minLongShortcutsPerSide := by
              rw [length_filter_isLong_sideActive, ← hsider]
              exact hfloor
            have hmedpos : 0 < (((activeShortcuts ss).filter
                  fun x => decide (x.side = Side.right)).filter
                  fun x => !x.isLong).length := by
              obtain ⟨m, hm, hms, hmo, hml⟩ := hmed
              have hma : m ∈ activeShortcuts ss :=
                List.mem_filter.mpr ⟨hm, by simp [hmo]⟩
              have hmright : m ∈ (activeShortcuts ss).filter
                  fun x => decide (x.side = Side.right) :=
                List.mem_filter.mpr ⟨hma, by simp [hms, ← hsider]⟩
              exact List.length_pos_of_mem
                (List.mem_filter.mpr ⟨hmright, by simp [hml]⟩)
            have hrmed := hrmedium hlo hmedpos
            rw [hrs, hslong] at hrmed
            exact absurd hrmed (by simp)

/-- Under the constant-zero index oracle every attempt samples the same
node twice, so `singleLoop` exhausts its budget and returns nothing. -/
theorem singleLoop_const_draw (p : Params) (sideNodes : List Node)
    (keys : List (ℕ × ℕ)) (side : Side) (cal nl : Bool) (pref : Option Bool) :
    ∀ (fuel t a : ℕ),
      singleLoop p (fun _ => 0) sideNodes keys side cal nl pref fuel t a = none := by
  intro fuel
  induction fuel with
  | zero => intro t a; rfl
  | succ fuel ih =>
    intro t a
    simp only [singleLoop, if_true]
    exact ih _ _

/-- Counterexample to C1 as stated: the left side holds exactly one
non-fading-out long shortcut — the `minLong = 1` floor — and no medium
edge.  A rewiring tick whose Poisson draw is 1 (`9/10 > 7/10`, then
`9/20 ≤ 7/10`) then marks that very long edge `fadingOut` (the
`selectSwappable` fallback offers it because no medium exists), and the
replacement attempt fails (the only candidate pair's key is taken), so the
side's non-fading-out long count drops to `0 < minLong`. -/
theorem C1_counterexample :
    countLongShortcutsForSide [cexShortcut] Side.left =
      defaults.minLongShortcutsPerSide ∧
    rewireTick defaults (7/10) [9/10, 1/2] (fun _ => 0) 0 id
        [farNodeA, farNodeB] [cexShortcut] =
      [{ cexShortcut with fadingOut := true }] ∧
    countLongShortcutsForSide
      (rewireTick defaults (7/10) [9/10, 1/2] (fun _ => 0) 0 id
        [farNodeA, farNodeB] [cexShortcut]) Side.left = 0 := by
  have hres : rewireTick defaults (7/10) [9/10, 1/2] (fun _ => 0) 0 id
      [farNodeA, farNodeB] [cexShortcut] =
      [{ cexShortcut with fadingOut := true }] := by
    norm_num [rewireTick, poissonRandom, poissonSteps, checkAndSwapShortcuts,
      activeShortcuts, selectSwappable, swapStep, markFadingOutByKey,
      createSingleShortcut, singleLoop_const_draw, countLongShortcutsForSide,
      edgeKeyOf, getEdgeKey, defaults, farNodeA, farNodeB, cexShortcut,
      steadyShortcut]
  refine ⟨?_, hres, ?_⟩
  · norm_num [countLongShortcutsForSide, cexShortcut, steadyShortcut, defaults]
  · rw [hres]
    norm_num [countLongShortcutsForSide, cexShortcut, steadyShortcut]

/-- Witness for the amended C1 at concrete inputs: a fade pass on the empty
array, a zero-swap cycle, an empty-lattice initial population, and — for
the protection part — a one-swap cycle on a state holding the floor long
edge plus a medium edge, in which the long edge survives unmarked. -/
theorem C1_long_bounds_amended_witness :
    countLongShortcutsForSide (updateShortcutFades 45 []) Side.left =
      countLongShortcutsForSide [] Side.left ∧
    countLongShortcutsForSide
      (checkAndSwapShortcuts defaults (fun _ => 0) 0 id 0 [] []) Side.left ≤
      defaults.maxLongShortcutsPerSide ∧
    countLongShortcutsForSide (buildInitialShortcuts defaults (fun _ => 0) [])
      Side.left ≤ defaults.maxLongShortcutsPerSide ∧
    cexShortcut ∈ checkAndSwapShortcuts defaults (fun _ => 0) 0 id 1
      [] [cexShortcut, medShortcut] := by
  obtain ⟨hA, hB, hC, hD⟩ := C1_long_bounds_amended defaults
  refine ⟨hA 45 [] Side.left,
    hB (fun _ => 0) 0 id 0 [] [] Side.left (by norm_num [countLongShortcutsForSide]),
    hC (fun _ => 0) [] Side.left (by norm_num [defaults]), ?_⟩
  refine hD (fun _ => 0) 0 id 1 [] [cexShortcut, medShortcut] Side.left cexShortcut
    (fun l x h => h) ?_ ?_ ⟨medShortcut, by simp, rfl, rfl, rfl⟩ (by simp) rfl rfl rfl
  · norm_num [edgeKeyOf, getEdgeKey, cexShortcut, medShortcut, steadyShortcut,
      farNodeA, farNodeB]
  · norm_num [countLongShortcutsForSide, cexShortcut, medShortcut, steadyShortcut,
      defaults]

end SmallWorld

